import Mathlib

/-!
Verification of the determinisk deterministic 2D physics core against its
natural-language specification.

The Rust sources are shallowly embedded: the Q16.16 fixed-point scalar
(`fixed::types::I16F16`, a 32-bit signed encoding) is modelled as an `Int`
encoding together with explicit wrapping to the signed 32-bit range, as the
specification prescribes ("Silent wrapping by contract").  Multiplication is
the 64-bit product arithmetically shifted right by 16 (a floor division by
2^16); division is the 64-bit quotient `(a <<< 16) / b` truncated toward zero.
Fallible operations (division by a zero encoding, which panics in Rust) are
additionally modelled by `Option`-returning checked variants.

Conversions performed by the external `fixed` crate (`from_num` on `f32`,
`to_num` on integers) are not part of this repository's sources; following
the specification they are modelled as: float inputs are converted to the
nearest Q16.16 encoding at load time (the concrete encodings used below are
stated as constants), and `to_int` truncates the Q16.16 value toward zero.
-/

namespace Det

/-- Wrap an integer into the signed 32-bit range, the overflow policy of every
Q16.16 operation ("Wrapping — deterministic across platforms"). -/
def wrap (n : Int) : Int := (n + 2147483648) % 4294967296 - 2147483648

/-- Q16.16 fixed-point scalar (`Scalar(pub I16F16)` in `math/scalar.rs`),
represented by its 32-bit signed encoding. -/
structure Scalar where
  bits : Int
deriving DecidableEq, Repr

/-- `Scalar::ZERO`. -/
def Scalar.zero : Scalar := ⟨0⟩

/-- `Scalar::ONE` (encoding `1 <<< 16`). -/
def Scalar.one : Scalar := ⟨65536⟩

/-- `Scalar::TWO` (encoding `0x00020000`). -/
def Scalar.two : Scalar := ⟨131072⟩

/-- `Scalar::HALF` (encoding `0x00008000`). -/
def Scalar.half : Scalar := ⟨32768⟩

/-- `impl Add for Scalar`: 32-bit signed wrapping addition of encodings. -/
def Scalar.add (a b : Scalar) : Scalar := ⟨wrap (a.bits + b.bits)⟩

/-- `impl Sub for Scalar`: 32-bit signed wrapping subtraction of encodings. -/
def Scalar.sub (a b : Scalar) : Scalar := ⟨wrap (a.bits - b.bits)⟩

/-- `impl Neg for Scalar`: wrapping negation of the encoding. -/
def Scalar.neg (a : Scalar) : Scalar := ⟨wrap (-a.bits)⟩

/-- `impl Mul for Scalar`: 64-bit product, arithmetic right shift by 16
(floor division by 2^16), wrapped to 32 bits. -/
def Scalar.mul (a b : Scalar) : Scalar := ⟨wrap (Int.fdiv (a.bits * b.bits) 65536)⟩

/-- `impl Div for Scalar`: `(a <<< 16) / b` as a 64-bit quotient truncated
toward zero, wrapped to 32 bits.  A zero divisor panics in Rust; here
`Int.tdiv _ 0 = 0` is junk, and `Scalar.divChecked` models the panic. -/
def Scalar.div (a b : Scalar) : Scalar := ⟨wrap (Int.tdiv (a.bits * 65536) b.bits)⟩

/-- `Scalar::abs`: encoding-wise absolute value; `abs(MIN)` wraps to `MIN`. -/
def Scalar.abs (a : Scalar) : Scalar := ⟨wrap (if a.bits < 0 then -a.bits else a.bits)⟩

/-- The arithmetic right shift by one used for the initial `sqrt` guess
(`self.0 >> 1`): floor division of the encoding by 2. -/
def Scalar.shr1 (a : Scalar) : Scalar := ⟨Int.fdiv a.bits 2⟩

/-- Modelled from the spec: `to_int` (the external fixed crate conversion used
by `spatial/mod.rs`, absent from the repository sources) truncates the Q16.16
value toward zero. -/
def Scalar.toInt (a : Scalar) : Int := Int.tdiv a.bits 65536

/-- The Newton–Raphson loop of `Scalar::sqrt`: at most `fuel` iterations of
`next = (guess + x / guess) / TWO`, breaking (and returning the pre-update
`guess`) as soon as `|next - guess| < from_bits(1)`. -/
def sqrtGo (x : Scalar) : Nat → Scalar → Scalar
  | 0, guess => guess
  | Nat.succ n, guess =>
    let next := (guess.add (x.div guess)).div Scalar.two
    if ((next.sub guess).abs).bits < 1 then guess else sqrtGo x n next

/-- `Scalar::sqrt`: zero for non-positive inputs, otherwise 8 Newton–Raphson
iterations starting from the input shifted right by one. -/
def Scalar.sqrt (x : Scalar) : Scalar :=
  if x.bits ≤ 0 then Scalar.zero else sqrtGo x 8 x.shr1

/-- The same loop as `sqrtGo`, additionally reporting—when the early break
fires—the value `|next - guess|` that triggered it. -/
def sqrtGoE (x : Scalar) : Nat → Scalar → Scalar × Option Scalar
  | 0, guess => (guess, none)
  | Nat.succ n, guess =>
    let next := (guess.add (x.div guess)).div Scalar.two
    let d := (next.sub guess).abs
    if d.bits < 1 then (guess, some d) else sqrtGoE x n next

/-- Division with the Rust panic on a zero divisor made explicit: `none`
models the `attempt to divide by zero` panic of the fixed-point division. -/
def Scalar.divChecked (a b : Scalar) : Option Scalar :=
  if b.bits = 0 then none else some (a.div b)

/-- `sqrtGo` with every division checked: `none` models a division-by-zero
panic inside the Newton–Raphson loop. -/
def sqrtGoChecked (x : Scalar) : Nat → Scalar → Option Scalar
  | 0, guess => some guess
  | Nat.succ n, guess =>
    match Scalar.divChecked x guess with
    | none => none
    | some q =>
      match Scalar.divChecked (guess.add q) Scalar.two with
      | none => none
      | some next =>
        if ((next.sub guess).abs).bits < 1 then some guess else sqrtGoChecked x n next

/-- `Scalar::sqrt` with divisions checked: `none` exactly when the Rust code
would panic with a division by zero. -/
def Scalar.sqrtChecked (x : Scalar) : Option Scalar :=
  if x.bits ≤ 0 then some Scalar.zero else sqrtGoChecked x 8 x.shr1

/-- `Vec2`: ordered pair of Q16.16 scalars (`math/vec2.rs`). -/
structure Vec2 where
  x : Scalar
  y : Scalar
deriving DecidableEq, Repr

/-- `Vec2::ZERO`. -/
def Vec2.zero : Vec2 := ⟨Scalar.zero, Scalar.zero⟩

/-- `impl Add for Vec2`: componentwise. -/
def Vec2.add (a b : Vec2) : Vec2 := ⟨a.x.add b.x, a.y.add b.y⟩

/-- `impl Sub for Vec2`: componentwise. -/
def Vec2.sub (a b : Vec2) : Vec2 := ⟨a.x.sub b.x, a.y.sub b.y⟩

/-- `impl Neg for Vec2`: componentwise. -/
def Vec2.neg (a : Vec2) : Vec2 := ⟨a.x.neg, a.y.neg⟩

/-- `impl Mul<Scalar> for Vec2`: scale both components. -/
def Vec2.smul (a : Vec2) (s : Scalar) : Vec2 := ⟨a.x.mul s, a.y.mul s⟩

/-- `impl Div<Scalar> for Vec2`: divide both components. -/
def Vec2.sdiv (a : Vec2) (s : Scalar) : Vec2 := ⟨a.x.div s, a.y.div s⟩

/-- `Vec2::dot`: `self.x * other.x + self.y * other.y`, both products first,
then the sum. -/
def Vec2.dot (a b : Vec2) : Scalar := (a.x.mul b.x).add (a.y.mul b.y)

/-- `Vec2::magnitude_squared`: `x * x + y * y`. -/
def Vec2.magnitude_squared (a : Vec2) : Scalar := (a.x.mul a.x).add (a.y.mul a.y)

/-- Modelled from the spec: the `length_squared` method called by
`spatial/mod.rs` is absent from `math/vec2.rs`; per the specification it is
the squared magnitude `dot(v, v) = x·x + y·y`. -/
def Vec2.length_squared (a : Vec2) : Scalar := (a.x.mul a.x).add (a.y.mul a.y)

/-- `Circle` (`physics/circle.rs`). -/
structure Circle where
  position : Vec2
  old_position : Vec2
  velocity : Vec2
  radius : Scalar
  mass : Scalar
  restitution : Scalar
  friction : Scalar
deriving DecidableEq, Repr

/-- Encoding of `Scalar::from_float(0.5)` (exact). -/
def flHalf : Scalar := ⟨32768⟩

/-- Modelled from the spec: the nearest Q16.16 encoding of the `f32` constant
`0.1` (`Scalar::from_float(0.1)` via the external fixed crate). -/
def fl01 : Scalar := ⟨6554⟩

/-- `Circle::new`: `old_position = position`, zero velocity, restitution 0.5,
friction 0.1. -/
def Circle.new (position : Vec2) (radius mass : Scalar) : Circle :=
  { position := position, old_position := position, velocity := Vec2.zero,
    radius := radius, mass := mass, restitution := flHalf, friction := fl01 }

/-- `Circle::set_velocity`: `old_position = position - velocity * dt`. -/
def Circle.set_velocity (c : Circle) (velocity : Vec2) (dt : Scalar) : Circle :=
  { c with old_position := c.position.sub (velocity.smul dt) }

/-- The all-zero circle, used as the `getD` default where Rust indexing would
panic; every theorem below that indexes carries an in-range hypothesis. -/
def dCircle : Circle :=
  { position := Vec2.zero, old_position := Vec2.zero, velocity := Vec2.zero,
    radius := Scalar.zero, mass := Scalar.zero, restitution := Scalar.zero,
    friction := Scalar.zero }

/-- `CollisionConfig` (`physics/collision.rs`). -/
structure CollisionConfig where
  restitution : Scalar
  position_correction : Scalar
  velocity_threshold : Scalar
deriving DecidableEq, Repr

/-- Modelled from the spec: nearest Q16.16 encodings of the `f32` defaults
0.8, 0.4 and 0.01 of `CollisionConfig::default`. -/
def CollisionConfig.default : CollisionConfig :=
  { restitution := ⟨52429⟩, position_correction := ⟨26214⟩, velocity_threshold := ⟨655⟩ }

/-- `Collision` (`spatial/mod.rs`): a detected circle-circle contact. -/
structure Collision where
  idx_a : Nat
  idx_b : Nat
  normal : Vec2
  depth : Scalar
  contact : Vec2
deriving DecidableEq, Repr

/-- `Boundary` (`spatial/mod.rs`). -/
inductive Boundary where
  | Left
  | Right
  | Top
  | Bottom
deriving DecidableEq, Repr

/-- `BoundaryCollision` (`spatial/mod.rs`). -/
structure BoundaryCollision where
  idx : Nat
  boundary : Boundary
  depth : Scalar
  contact : Vec2
deriving DecidableEq, Repr

/-- `Impulse` (`physics/collision.rs`). -/
structure Impulse where
  idx : Nat
  delta_v : Vec2
  delta_pos : Vec2
deriving DecidableEq, Repr

/-- The body of the `detect_collisions` loop for one candidate pair: `some`
contact when `0 < dist_sq < sum_radii_sq`, `none` otherwise. -/
def detectOne (circles : List Circle) (p : Nat × Nat) : Option Collision :=
  let circle_a := circles.getD p.1 dCircle
  let circle_b := circles.getD p.2 dCircle
  let delta := circle_b.position.sub circle_a.position
  let dist_sq := delta.length_squared
  let sum_radii := circle_a.radius.add circle_b.radius
  let sum_radii_sq := sum_radii.mul sum_radii
  if dist_sq.bits < sum_radii_sq.bits ∧ 0 < dist_sq.bits then
    let dist := dist_sq.sqrt
    let normal := delta.sdiv dist
    let depth := sum_radii.sub dist
    let contact := circle_a.position.add (normal.smul circle_a.radius)
    some { idx_a := p.1, idx_b := p.2, normal := normal, depth := depth, contact := contact }
  else
    none

/-- `detect_collisions` (`spatial/mod.rs`): one pass over the candidate
pairs, pushing a contact for each overlapping pair. -/
def detect_collisions (circles : List Circle) (pairs : List (Nat × Nat)) : List Collision :=
  pairs.filterMap (detectOne circles)

/-- The boundary contacts of one circle, in the source's test order
Left, Right, Bottom, Top (`detect_boundary_collisions` loop body). -/
def boundaryChecks (world_width world_height : Scalar) (idx : Nat) (c : Circle) :
    List BoundaryCollision :=
  let pos := c.position
  let radius := c.radius
  (if (pos.x.sub radius).bits < 0 then
    [⟨idx, Boundary.Left, radius.sub pos.x, ⟨Scalar.zero, pos.y⟩⟩] else []) ++
  (if world_width.bits < (pos.x.add radius).bits then
    [⟨idx, Boundary.Right, (pos.x.add radius).sub world_width, ⟨world_width, pos.y⟩⟩] else []) ++
  (if (pos.y.sub radius).bits < 0 then
    [⟨idx, Boundary.Bottom, radius.sub pos.y, ⟨pos.x, Scalar.zero⟩⟩] else []) ++
  (if world_height.bits < (pos.y.add radius).bits then
    [⟨idx, Boundary.Top, (pos.y.add radius).sub world_height, ⟨pos.x, world_height⟩⟩] else [])

/-- `detect_boundary_collisions` (`spatial/mod.rs`). -/
def detect_boundary_collisions (circles : List Circle) (world_width world_height : Scalar) :
    List BoundaryCollision :=
  circles.enum.flatMap (fun p => boundaryChecks world_width world_height p.1 p.2)

/-- The body of the `resolve_collisions` loop for one contact: the two
impulses pushed for an approaching pair, nothing for a separating one. -/
def resolveOne (circles : List Circle) (config : CollisionConfig) (collision : Collision) :
    List Impulse :=
  let circle_a := circles.getD collision.idx_a dCircle
  let circle_b := circles.getD collision.idx_b dCircle
  let relative_velocity := circle_b.velocity.sub circle_a.velocity
  let velocity_along_normal := relative_velocity.dot collision.normal
  if 0 < velocity_along_normal.bits then []
  else
    let e := if config.velocity_threshold.bits < velocity_along_normal.abs.bits then
      config.restitution else Scalar.zero
    let mass_a := circle_a.mass
    let mass_b := circle_b.mass
    let impulse_scalar :=
      ((Scalar.one.add e).neg.mul velocity_along_normal).div
        ((Scalar.one.div mass_a).add (Scalar.one.div mass_b))
    let impulse := collision.normal.smul impulse_scalar
    let delta_v_a := (impulse.neg).sdiv mass_a
    let delta_v_b := impulse.sdiv mass_b
    let total_correction := collision.depth.mul config.position_correction
    let mass_sum := mass_a.add mass_b
    let correction_a := collision.normal.smul ((total_correction.mul mass_b).div mass_sum)
    let correction_b := (collision.normal.neg).smul ((total_correction.mul mass_a).div mass_sum)
    [ { idx := collision.idx_a, delta_v := delta_v_a, delta_pos := correction_a.neg },
      { idx := collision.idx_b, delta_v := delta_v_b, delta_pos := correction_b.neg } ]

/-- `resolve_collisions` (`physics/collision.rs`). -/
def resolve_collisions (circles : List Circle) (collisions : List Collision)
    (config : CollisionConfig) : List Impulse :=
  collisions.flatMap (resolveOne circles config)

/-- The unit normal of each wall, as matched in `resolve_boundary_collisions`. -/
def Boundary.normal : Boundary → Vec2
  | Boundary.Left => ⟨Scalar.one, Scalar.zero⟩
  | Boundary.Right => ⟨Scalar.one.neg, Scalar.zero⟩
  | Boundary.Bottom => ⟨Scalar.zero, Scalar.one⟩
  | Boundary.Top => ⟨Scalar.zero, Scalar.one.neg⟩

/-- The body of the `resolve_boundary_collisions` loop for one wall contact. -/
def resolveBoundaryOne (circles : List Circle) (config : CollisionConfig)
    (collision : BoundaryCollision) : List Impulse :=
  let circle := circles.getD collision.idx dCircle
  let normal := collision.boundary.normal
  let velocity_along_normal := circle.velocity.dot normal
  if 0 < velocity_along_normal.bits then []
  else
    let e := if config.velocity_threshold.bits < velocity_along_normal.abs.bits then
      config.restitution else Scalar.zero
    let impulse_scalar := (Scalar.one.add e).neg.mul velocity_along_normal
    let impulse := normal.smul impulse_scalar
    let delta_v := impulse.sdiv circle.mass
    let delta_pos := normal.smul (collision.depth.mul config.position_correction)
    [ { idx := collision.idx, delta_v := delta_v, delta_pos := delta_pos } ]

/-- `resolve_boundary_collisions` (`physics/collision.rs`). -/
def resolve_boundary_collisions (circles : List Circle) (collisions : List BoundaryCollision)
    (config : CollisionConfig) : List Impulse :=
  collisions.flatMap (resolveBoundaryOne circles config)

/-- One accumulation step of `apply_impulses`: add the impulse's deltas into
the map slot at its index (Rust panics out of range; `List.set` is a no-op
there, and the theorems below carry in-range hypotheses). -/
def accStep (m : List (Vec2 × Vec2)) (impulse : Impulse) : List (Vec2 × Vec2) :=
  let slot := m.getD impulse.idx (Vec2.zero, Vec2.zero)
  m.set impulse.idx (slot.1.add impulse.delta_v, slot.2.add impulse.delta_pos)

/-- `apply_impulses` (`physics/collision.rs`): accumulate the impulses per
body index, then rebuild every circle with `position + Δp`, `velocity + Δv`
and all other fields unchanged. -/
def apply_impulses (circles : List Circle) (impulses : List Impulse) : List Circle :=
  let impulse_map := impulses.foldl accStep (List.replicate circles.length (Vec2.zero, Vec2.zero))
  circles.enum.map (fun p =>
    let acc := impulse_map.getD p.1 (Vec2.zero, Vec2.zero)
    { p.2 with position := p.2.position.add acc.2, velocity := p.2.velocity.add acc.1 })

/-- `GridCell` (`spatial/mod.rs`): integer cell coordinates. -/
structure GridCell where
  x : Int
  y : Int
deriving DecidableEq, Repr

/-- The derived lexicographic `Ord` of `GridCell` (field order `x`, `y`). -/
def GridCell.ltb (a b : GridCell) : Bool := a.x < b.x || (a.x = b.x && a.y < b.y)

/-- `BTreeMap::entry(cell).or_insert_with(Vec::new).push(idx)`: the ordered
map is a key-sorted association list; insertion keeps it sorted and appends
the index to the cell's vector. -/
def cellsInsert : List (GridCell × List Nat) → GridCell → Nat → List (GridCell × List Nat)
  | [], c, idx => [(c, [idx])]
  | (k, l) :: rest, c, idx =>
    if c = k then (k, l ++ [idx]) :: rest
    else if GridCell.ltb c k then (c, [idx]) :: (k, l) :: rest
    else (k, l) :: cellsInsert rest c idx

/-- `SpatialGrid` (`spatial/mod.rs`). -/
structure SpatialGrid where
  cells : List (GridCell × List Nat)
  cell_size : Scalar
  world_width : Scalar
  world_height : Scalar

/-- `SpatialGrid::position_to_cell`: `(pos / cell_size).to_int()` per axis. -/
def position_to_cell (cell_size : Scalar) (pos : Vec2) : GridCell :=
  ⟨(pos.x.div cell_size).toInt, (pos.y.div cell_size).toInt⟩

/-- The inclusive integer range `lo..=hi` of a Rust `for` loop. -/
def intRange (lo hi : Int) : List Int :=
  (List.range (hi + 1 - lo).toNat).map (fun k => lo + Int.ofNat k)

/-- `SpatialGrid::get_overlapping_cells`: every cell in the integer range of
cell coordinates of the circle's bounding box `[p - r, p + r]`, outer loop on
x, inner on y. -/
def get_overlapping_cells (cell_size : Scalar) (center : Vec2) (radius : Scalar) :
    List GridCell :=
  let min_x := (center.x.sub radius).div cell_size
  let max_x := (center.x.add radius).div cell_size
  let min_y := (center.y.sub radius).div cell_size
  let max_y := (center.y.add radius).div cell_size
  (intRange min_x.toInt max_x.toInt).flatMap (fun cx =>
    (intRange min_y.toInt max_y.toInt).map (fun cy => GridCell.mk cx cy))

/-- The body of the `SpatialGrid::build` loop for one circle: insert the index
into the position cell, then into every distinct overlapping cell. -/
def insertCircle (cell_size : Scalar) (cells : List (GridCell × List Nat)) (idx : Nat)
    (c : Circle) : List (GridCell × List Nat) :=
  let cell := position_to_cell cell_size c.position
  let cells1 := cellsInsert cells cell idx
  (get_overlapping_cells cell_size c.position c.radius).foldl
    (fun cs nc => if nc = cell then cs else cellsInsert cs nc idx) cells1

/-- `SpatialGrid::build`: a fold of `insertCircle` over the circles in index
order, starting from the empty map. -/
def SpatialGrid.build (circles : List Circle) (cell_size world_width world_height : Scalar) :
    SpatialGrid :=
  { cells := circles.enum.foldl (fun cs p => insertCircle cell_size cs p.1 p.2) []
    cell_size := cell_size
    world_width := world_width
    world_height := world_height }

/-- `(min_idx, max_idx)` normalisation of a candidate pair. -/
def normPair (a b : Nat) : Nat × Nat := if a < b then (a, b) else (b, a)

/-- All within-cell candidate pairs `(indices[i], indices[j])`, `i < j`, each
normalised, in the double-loop order of `get_collision_pairs`. -/
def cellPairs : List Nat → List (Nat × Nat)
  | [] => []
  | a :: rest => rest.map (fun b => normPair a b) ++ cellPairs rest

/-- Push a pair unless it was already emitted: the `checked` ordered set of
`get_collision_pairs` holds exactly the keys already in `pairs`, so the
map-guarded push is an append-if-absent on the output list. -/
def pushNew (acc : List (Nat × Nat)) (p : Nat × Nat) : List (Nat × Nat) :=
  if p ∈ acc then acc else acc ++ [p]

/-- `SpatialGrid::get_collision_pairs`: iterate the cells in key order and
emit every within-cell pair exactly once. -/
def SpatialGrid.get_collision_pairs (g : SpatialGrid) : List (Nat × Nat) :=
  g.cells.foldl (fun acc kv => (cellPairs kv.2).foldl pushNew acc) []

/-- Encoding of `Scalar::from_float(1.0)` (exact), the `unwrap_or` fallback
for the maximum radius of an empty world. -/
def flOne : Scalar := ⟨65536⟩

/-- `circles.iter().map(|c| c.radius).max().unwrap_or(from_float(1.0))`. -/
def maxRadiusOf (circles : List Circle) : Scalar :=
  match circles with
  | [] => flOne
  | c :: rest => rest.foldl (fun acc x => if acc.bits < x.radius.bits then x.radius else acc) c.radius

/-- Encoding of `Scalar::from_float(2.0)` (exact). -/
def flTwo : Scalar := ⟨131072⟩

/-- `resolve_all_collisions` (`physics/collision.rs`): grid build, pair
enumeration, narrow phase, wall contacts, impulses, functional application. -/
def resolve_all_collisions (circles : List Circle) (world_width world_height : Scalar)
    (config : CollisionConfig) : List Circle :=
  let max_radius := maxRadiusOf circles
  let cell_size := max_radius.mul flTwo
  let grid := SpatialGrid.build circles cell_size world_width world_height
  let pairs := grid.get_collision_pairs
  let circle_collisions := detect_collisions circles pairs
  let boundary_collisions := detect_boundary_collisions circles world_width world_height
  let all_impulses := resolve_collisions circles circle_collisions config ++
    resolve_boundary_collisions circles boundary_collisions config
  apply_impulses circles all_impulses

/-- `World` (`physics/world.rs`). -/
structure World where
  bounds : Vec2
  gravity : Vec2
  timestep : Scalar
  circles : List Circle
  collision_config : CollisionConfig
deriving DecidableEq, Repr

/-- Modelled from the spec: nearest Q16.16 encoding of the `f32` value
`-9.81`, the default gravity's y component. -/
def flG : Scalar := ⟨-642908⟩

/-- Modelled from the spec: nearest Q16.16 encoding of the `f32` value
`1.0 / 60.0`, the default timestep. -/
def flDt : Scalar := ⟨1092⟩

/-- `World::new` with the width and height already converted to Q16.16. -/
def World.new (width height : Scalar) : World :=
  { bounds := ⟨width, height⟩
    gravity := ⟨Scalar.zero, flG⟩
    timestep := flDt
    circles := []
    collision_config := CollisionConfig.default }

/-- The Verlet integration loop body of `World::step` (step 1): integrate the
position, cache a velocity for the resolvers, then save the pre-integration
position into `old_position`. -/
def integrateCircle (gravity : Vec2) (timestep : Scalar) (c : Circle) : Circle :=
  let current := c.position
  let newPos := ((current.smul Scalar.two).sub c.old_position).add
    ((gravity.smul timestep).smul timestep)
  let vel := (newPos.sub c.old_position).sdiv timestep
  { c with position := newPos, velocity := vel, old_position := current }

/-- Step 1 of `World::step` applied to the whole body list. -/
def World.integrate (w : World) : World :=
  { w with circles := w.circles.map (integrateCircle w.gravity w.timestep) }

/-- Step 2 of `World::step`: replace the circles by the functional collision
resolution of the integrated state. -/
def World.resolve (w : World) : World :=
  { w with circles := resolve_all_collisions w.circles w.bounds.x w.bounds.y w.collision_config }

/-- Step 3 of `World::step`: refresh every cached velocity as
`(position - old_position) / timestep`. -/
def World.refresh (w : World) : World :=
  { w with circles := w.circles.map (fun c =>
      { c with velocity := (c.position.sub c.old_position).sdiv w.timestep }) }

/-- `World::step`: integrate, resolve collisions, refresh velocities. -/
def World.step (w : World) : World := w.integrate.resolve.refresh

/-- `CircleConfig` (`state/mod.rs`) with the float fields already converted
to their Q16.16 encodings at load, as the specification prescribes. -/
structure CircleConfig where
  position : Vec2
  velocity : Vec2
  radius : Scalar
  mass : Scalar
deriving DecidableEq, Repr

/-- `SimulationInput` (`state/mod.rs`), float fields as Q16.16 encodings. -/
structure SimulationInput where
  world_width : Scalar
  world_height : Scalar
  gravity : Vec2
  timestep : Scalar
  restitution : Scalar
  position_correction : Scalar
  circles : List CircleConfig
  num_steps : Nat
  record_trajectory : Bool
  seed : Nat
deriving DecidableEq, Repr

/-- `World::from_input`: build the world, override gravity, timestep and the
two collision-config fields, then add one circle per configuration with its
initial velocity seeded through `old_position`.  No input validation occurs. -/
def World.from_input (input : SimulationInput) : World :=
  let base := World.new input.world_width input.world_height
  let w := { base with
    gravity := input.gravity
    timestep := input.timestep
    collision_config := { base.collision_config with
      restitution := input.restitution
      position_correction := input.position_correction } }
  { w with circles := input.circles.map (fun cfg =>
      (Circle.new cfg.position cfg.radius cfg.mass).set_velocity cfg.velocity w.timestep) }

/-- `CircleState` (`state/mod.rs`).  The source stores `f32` projections of
the Q16.16 fields; since the `f32` values are fixed functions of the
encodings, the snapshot is recorded here at the encoding level (equality of
encodings is equality of the recorded bytes). -/
structure CircleState where
  position : Vec2
  velocity : Vec2
  radius : Scalar
  mass : Scalar
deriving DecidableEq, Repr

/-- `SimulationState` (`state/mod.rs`).  The `time` field of the source is
`step as f32 * timestep.to_float()`, a fixed function of `step` and the
world's timestep encoding, and is omitted from the snapshot. -/
structure SimulationState where
  step : Nat
  circles : List CircleState
  frame_collisions : Nat
  frame_boundary_hits : Nat
deriving DecidableEq, Repr

/-- `SimulationMetrics` (`state/mod.rs`), with the two `f32` aggregates kept
at the Q16.16 encoding level (`to_float` and the `f32` running maximum are
monotone fixed functions of these encodings). -/
structure SimulationMetrics where
  total_energy : Scalar
  max_velocity : Scalar
  collision_count : Nat
  boundary_hits : Nat
deriving DecidableEq, Repr

/-- `SimulationOutput` (`state/mod.rs`). -/
structure SimulationOutput where
  final_state : SimulationState
  steps_executed : Nat
  metrics : SimulationMetrics
deriving DecidableEq, Repr

/-- `SimulationTrace` (`state/mod.rs`).  The echoed `input` record of the
source is rebuilt from the world's own encodings via `to_float`, hence a
fixed function of the world, and is omitted here. -/
structure SimulationTrace where
  states : List SimulationState
  output : SimulationOutput
deriving DecidableEq, Repr

/-- `World::detect_collisions` (the metrics helper in `state/mod.rs`):
rebuild the grid and report the overlapping pairs' indices. -/
def World.detect_collisions (w : World) : List (Nat × Nat) :=
  let max_radius := maxRadiusOf w.circles
  let cell_size := max_radius.mul flTwo
  let grid := SpatialGrid.build w.circles cell_size w.bounds.x w.bounds.y
  let pairs := grid.get_collision_pairs
  (Det.detect_collisions w.circles pairs).map (fun c => (c.idx_a, c.idx_b))

/-- `World::detect_boundary_collisions` (the metrics helper): the indices of
the wall contacts. -/
def World.detect_boundary_collisions (w : World) : List Nat :=
  (Det.detect_boundary_collisions w.circles w.bounds.x w.bounds.y).map (fun c => c.idx)

/-- `World::capture_state`. -/
def World.capture_state (w : World) (step : Nat) : SimulationState :=
  { step := step
    circles := w.circles.map (fun c =>
      { position := c.position, velocity := c.velocity, radius := c.radius, mass := c.mass })
    frame_collisions := w.detect_collisions.length
    frame_boundary_hits := w.detect_boundary_collisions.length }

/-- The larger of two encodings, mirroring the `f32::max` fold of the
`max_velocity` metric at the encoding level. -/
def Scalar.maxS (a b : Scalar) : Scalar := if a.bits < b.bits then b else a

/-- The per-tick `max_velocity` update of `run_with_recording`: fold the
speed `sqrt(vx² + vy²)` of every body whose squared speed is positive. -/
def updateMaxVelocity (circles : List Circle) (mv : Scalar) : Scalar :=
  circles.foldl (fun m c =>
    let v_squared := (c.velocity.x.mul c.velocity.x).add (c.velocity.y.mul c.velocity.y)
    if 0 < v_squared.bits then m.maxS v_squared.sqrt else m) mv

/-- `World::calculate_total_energy`: `Σ (½·m·v² + m·(-g_y)·y)` in the fold
order of the source. -/
def World.calculate_total_energy (w : World) : Scalar :=
  w.circles.foldl (fun total c =>
    let v_squared := (c.velocity.x.mul c.velocity.x).add (c.velocity.y.mul c.velocity.y)
    let kinetic := (c.mass.mul v_squared).mul flHalf
    let potential := (c.mass.mul w.gravity.y.neg).mul c.position.y
    (total.add kinetic).add potential) Scalar.zero

/-- The recording loop of `run_with_recording`: step the world, snapshot it,
update the running metrics, and recurse for the remaining ticks. -/
def runRec (w : World) (step remaining : Nat) (states : List SimulationState)
    (mv : Scalar) (cc bh : Nat) : World × List SimulationState × Scalar × Nat × Nat :=
  match remaining with
  | 0 => (w, states, mv, cc, bh)
  | Nat.succ k =>
    let w' := w.step
    let st := w'.capture_state step
    let mv' := updateMaxVelocity w'.circles mv
    let cc' := cc + w'.detect_collisions.length
    let bh' := bh + w'.detect_boundary_collisions.length
    runRec w' (step + 1) k (states ++ [st]) mv' cc' bh'

/-- `World::run_with_recording`: the initial snapshot at step 0, `num_steps`
recorded ticks, and the aggregated output record. -/
def World.run_with_recording (w : World) (num_steps : Nat) : SimulationTrace :=
  let s0 := w.capture_state 0
  let r := runRec w 1 num_steps [s0] Scalar.zero 0 0
  let final_world := r.1
  let states := r.2.1
  let output : SimulationOutput :=
    { final_state := states.getLastD s0
      steps_executed := num_steps
      metrics :=
        { total_energy := final_world.calculate_total_energy
          max_velocity := r.2.2.1
          collision_count := r.2.2.2.1
          boundary_hits := r.2.2.2.2 } }
  { states := states, output := output }

/-! ## Basic lemmas about the wrapped arithmetic -/

theorem wrap_lb (n : Int) : -2147483648 ≤ wrap n := by
  unfold wrap
  have h := Int.emod_nonneg (n + 2147483648) (by decide : (4294967296 : Int) ≠ 0)
  omega

theorem wrap_ub (n : Int) : wrap n < 2147483648 := by
  unfold wrap
  have h := Int.emod_lt_of_pos (n + 2147483648) (by decide : (0 : Int) < 4294967296)
  omega

theorem wrap_eq_self (n : Int) (h1 : -2147483648 ≤ n) (h2 : n < 2147483648) : wrap n = n := by
  unfold wrap
  have h : (n + 2147483648) % 4294967296 = n + 2147483648 :=
    Int.emod_eq_of_lt (by omega) (by omega)
  omega

theorem wrap_add_left (a b : Int) : wrap (wrap a + b) = wrap (a + b) := by
  unfold wrap
  have h : (a + 2147483648) % 4294967296 - 2147483648 + b + 2147483648 =
      (a + 2147483648) % 4294967296 + b := by ring
  rw [h, Int.add_emod, Int.emod_emod_of_dvd _ (by decide : (4294967296 : Int) ∣ 4294967296),
    ← Int.add_emod]
  ring_nf

theorem wrap_add_right (a b : Int) : wrap (a + wrap b) = wrap (a + b) := by
  rw [Int.add_comm a (wrap b), wrap_add_left, Int.add_comm]

/-- Wrapped scalar addition is commutative. -/
theorem Scalar.sadd_comm (a b : Scalar) : a.add b = b.add a := by
  unfold Scalar.add
  rw [Int.add_comm]

/-- Wrapped scalar addition is associative. -/
theorem Scalar.sadd_assoc (a b c : Scalar) : (a.add b).add c = a.add (b.add c) := by
  unfold Scalar.add
  simp only [wrap_add_left, wrap_add_right, Int.add_assoc]

/-- Componentwise vector addition is commutative. -/
theorem Vec2.vadd_comm (a b : Vec2) : a.add b = b.add a := by
  unfold Vec2.add
  rw [Scalar.sadd_comm a.x b.x, Scalar.sadd_comm a.y b.y]

/-- Componentwise vector addition is associative. -/
theorem Vec2.vadd_assoc (a b c : Vec2) : (a.add b).add c = a.add (b.add c) := by
  unfold Vec2.add
  rw [Scalar.sadd_assoc a.x b.x c.x, Scalar.sadd_assoc a.y b.y c.y]

/-- Generic helper: `getD` after `map`, below the length. -/
theorem getD_map_lt {α β : Type} (l : List α) (f : α → β) (i : Nat) (d : β) (da : α)
    (h : i < l.length) : (l.map f).getD i d = f (l.getD i da) := by
  induction l generalizing i with
  | nil => simp at h
  | cons hd tl ih =>
    cases i with
    | zero => rfl
    | succ j =>
      simp only [List.map_cons, List.getD_cons_succ]
      exact ih j (by simpa using h)

/-! ## Claims C3 and C7: the square-root loop -/

/-- Helper: if the wrapped absolute value of an in-range encoding is below
the break threshold `1`, that absolute value is `0` or the wrapped `MIN`. -/
theorem abs_small (u : Int) (h1 : -2147483648 ≤ u) (h2 : u < 2147483648)
    (h : (Scalar.abs ⟨u⟩).bits < 1) :
    (Scalar.abs ⟨u⟩).bits = 0 ∨ (Scalar.abs ⟨u⟩).bits = -2147483648 := by
  unfold Scalar.abs at h ⊢
  simp only at h ⊢
  by_cases hc : u < 0
  · simp only [if_pos hc] at h ⊢
    by_cases he : u = -2147483648
    · subst he
      right
      decide
    · rw [wrap_eq_self (-u) (by omega) (by omega)] at h
      omega
  · simp only [if_neg hc] at h ⊢
    rw [wrap_eq_self u (by omega) h2] at h ⊢
    omega

/-- Helper: the instrumented loop computes the same result as the source
loop. -/
theorem sqrtGoE_fst (x : Scalar) (n : Nat) (g : Scalar) : (sqrtGoE x n g).1 = sqrtGo x n g := by
  induction n generalizing g with
  | zero => rfl
  | succ k ih =>
    rw [sqrtGoE, sqrtGo]
    split
    · rfl
    · exact ih _

/-- Helper: whenever the early break of the Newton–Raphson loop fires, the
triggering `|next - guess|` has encoding `0` (equal iterates) or, in the
subtraction-overflow corner, the wrapped `MIN` encoding. -/
theorem sqrtGoE_exit (x : Scalar) (n : Nat) (g : Scalar) (d : Scalar)
    (h : (sqrtGoE x n g).2 = some d) : d.bits = 0 ∨ d.bits = -2147483648 := by
  induction n generalizing g with
  | zero => simp [sqrtGoE] at h
  | succ k ih =>
    simp only [sqrtGoE, apply_ite Prod.snd] at h
    split at h
    · simp only [Option.some.injEq] at h
      subst h
      apply abs_small
      · exact wrap_lb _
      · exact wrap_ub _
      · assumption
    · exact ih _ h

/-- C3: the claim states that no core operation panics, and in particular
that `Scalar::sqrt` evaluates without a division by zero for every input,
including strictly positive inputs whose right-shifted initial guess is zero.
The code contradicts this: for the smallest positive encoding `1` the initial
guess `1 >> 1` is zero and the first Newton–Raphson iteration divides by it,
so the checked evaluation aborts (`none`, modelling the Rust panic). -/
theorem sqrt_smallest_positive_input_divides_by_zero :
    0 < (Scalar.mk 1).bits ∧ (Scalar.mk 1).shr1 = Scalar.zero ∧
      Scalar.sqrtChecked ⟨1⟩ = none := by
  refine ⟨by decide, by decide, ?_⟩
  decide

/-- C7 (counterexample): the claim says the loop terminates early only when
two successive iterates differ by exactly the smallest representable positive
value (encoding `1`).  On input `1.0` (encoding `65536`, initial guess
`32768`) the loop breaks early with successive-iterate difference of encoding
`0`, not `1`. -/
theorem sqrt_early_break_difference_is_zero :
    0 < (Scalar.mk 65536).bits ∧ (Scalar.mk 65536).shr1 = ⟨32768⟩ ∧
      (sqrtGoE ⟨65536⟩ 8 ⟨32768⟩).2 = some ⟨0⟩ ∧ (Scalar.mk 0) ≠ ⟨1⟩ := by
  refine ⟨by decide, by decide, ?_, by decide⟩
  decide

/-- C7 (amended): `Scalar::sqrt` returns zero for every non-positive input;
for positive inputs it runs the Newton–Raphson loop for at most 8 iterations
starting from the input right-shifted by one; and the loop terminates early
only when two successive iterates differ by strictly less than the smallest
representable positive value on the wrapped absolute encoding — that is, the
iterates are equal (difference encoding `0`), or, in the corner where their
wrapped difference is exactly the minimum encoding, `|MIN| = MIN`. -/
theorem sqrt_newton_loop_spec (x : Scalar) :
    (x.bits ≤ 0 → x.sqrt = Scalar.zero) ∧
    (0 < x.bits → x.sqrt = (sqrtGoE x 8 x.shr1).1) ∧
    (∀ n g d, (sqrtGoE x n g).2 = some d → d.bits = 0 ∨ d.bits = -2147483648) := by
  refine ⟨?_, ?_, ?_⟩
  · intro h
    unfold Scalar.sqrt
    rw [if_pos h]
  · intro h
    unfold Scalar.sqrt
    rw [if_neg (by omega), sqrtGoE_fst]
  · intro n g d h
    exact sqrtGoE_exit x n g d h

/-- Witness for `sqrt_newton_loop_spec` at concrete inputs. -/
theorem sqrt_newton_loop_spec_w :
    Scalar.sqrt ⟨-327680⟩ = Scalar.zero ∧
      Scalar.sqrt ⟨65536⟩ = (sqrtGoE ⟨65536⟩ 8 (Scalar.shr1 ⟨65536⟩)).1 ∧
      ((Scalar.mk 0).bits = 0 ∨ (Scalar.mk 0).bits = -2147483648) :=
  ⟨(sqrt_newton_loop_spec ⟨-327680⟩).1 (by decide),
   (sqrt_newton_loop_spec ⟨65536⟩).2.1 (by decide),
   (sqrt_newton_loop_spec ⟨65536⟩).2.2 8 ⟨32768⟩ ⟨0⟩ (by decide)⟩

/-! ## Claim C2: the cached velocity at the start of collision resolution -/

/-- Concrete world for the C2 counterexample: a single body with velocity
1 unit per tick (timestep 1), no gravity. -/
def movingWorld : World :=
  { bounds := ⟨⟨6553600⟩, ⟨6553600⟩⟩
    gravity := ⟨⟨0⟩, ⟨0⟩⟩
    timestep := ⟨65536⟩
    circles := [{ position := ⟨⟨65536⟩, ⟨0⟩⟩, old_position := ⟨⟨0⟩, ⟨0⟩⟩,
                  velocity := ⟨⟨65536⟩, ⟨0⟩⟩, radius := ⟨65536⟩, mass := ⟨65536⟩,
                  restitution := ⟨32768⟩, friction := ⟨6554⟩ }]
    collision_config := CollisionConfig.default }

/-- C2 (counterexample): at the moment collision resolution begins (after
step 1 of `World::step`), the cached velocity of the moving body does not
equal `(position - old_position) / timestep` evaluated on the body's fields
at that moment: the cache was computed before `old_position` was overwritten,
so it reads `2` while the claimed projection reads `1`. -/
theorem step_velocity_cache_stale :
    ((movingWorld.integrate).circles.getD 0 dCircle).velocity ≠
      ((((movingWorld.integrate).circles.getD 0 dCircle).position.sub
        (((movingWorld.integrate).circles.getD 0 dCircle).old_position)).sdiv
        movingWorld.timestep) := by
  decide

/-- C2 (amended): at the moment collision resolution begins, each body's
cached velocity equals `(position - old_position_pre) / timestep` where
`position` is the newly integrated position and `old_position_pre` is the
body's `old_position` from before the step (the position of two ticks ago);
the body's `old_position` field itself already holds the pre-integration
position at that moment. -/
theorem integrate_velocity_uses_two_tick_delta (w : World) (i : Nat)
    (h : i < w.circles.length) :
    ((w.integrate).circles.getD i dCircle).velocity =
      (((w.integrate).circles.getD i dCircle).position.sub
        ((w.circles.getD i dCircle).old_position)).sdiv w.timestep ∧
    ((w.integrate).circles.getD i dCircle).old_position = (w.circles.getD i dCircle).position := by
  unfold World.integrate
  simp only
  rw [getD_map_lt w.circles _ i dCircle dCircle h]
  exact ⟨rfl, rfl⟩

/-- Witness for `integrate_velocity_uses_two_tick_delta` on the concrete
moving world. -/
theorem integrate_velocity_uses_two_tick_delta_w :
    ((movingWorld.integrate).circles.getD 0 dCircle).velocity =
      (((movingWorld.integrate).circles.getD 0 dCircle).position.sub
        ((movingWorld.circles.getD 0 dCircle).old_position)).sdiv movingWorld.timestep ∧
    ((movingWorld.integrate).circles.getD 0 dCircle).old_position =
      (movingWorld.circles.getD 0 dCircle).position :=
  integrate_velocity_uses_two_tick_delta movingWorld 0 (by decide)

/-! ## Claim C4: input validation at world construction -/

/-- Helper: `apply_impulses` preserves the number of bodies. -/
theorem apply_impulses_length (circles : List Circle) (impulses : List Impulse) :
    (apply_impulses circles impulses).length = circles.length := by
  unfold apply_impulses
  simp [List.enum_length]

/-- Helper: collision resolution preserves the number of bodies. -/
theorem resolve_all_collisions_length (circles : List Circle) (ww wh : Scalar)
    (config : CollisionConfig) :
    (resolve_all_collisions circles ww wh config).length = circles.length := by
  unfold resolve_all_collisions
  exact apply_impulses_length _ _

/-- Helper: `World::step` preserves the number of bodies. -/
theorem step_length (w : World) : (World.step w).circles.length = w.circles.length := by
  unfold World.step World.refresh World.resolve World.integrate
  simp only [List.length_map]
  rw [resolve_all_collisions_length]
  simp

/-- Concrete invalid input for the C4 counterexample: a single circle with
strictly negative mass. -/
def badInput : SimulationInput :=
  { world_width := ⟨6553600⟩, world_height := ⟨6553600⟩
    gravity := ⟨⟨0⟩, ⟨-642908⟩⟩
    timestep := ⟨1092⟩
    restitution := ⟨52429⟩
    position_correction := ⟨52429⟩
    circles := [{ position := ⟨⟨3276800⟩, ⟨3276800⟩⟩, velocity := ⟨⟨0⟩, ⟨0⟩⟩,
                  radius := ⟨327680⟩, mass := ⟨-65536⟩ }]
    num_steps := 1
    record_trajectory := false
    seed := 0 }

/-- C4 (counterexample): the claim states that a circle with non-positive
mass is rejected at world construction and that the core refuses to step the
resulting world.  Neither happens: `World::from_input` performs no
validation, the invalid body is constructed as-is, and `World::step`
processes it (the body's position changes under gravity). -/
theorem from_input_accepts_invalid :
    ((World.from_input badInput).circles.getD 0 dCircle).mass.bits < 0 ∧
    (World.from_input badInput).circles.length = 1 ∧
    ((World.from_input badInput).step.circles.getD 0 dCircle).position ≠
      ((World.from_input badInput).circles.getD 0 dCircle).position := by
  refine ⟨by decide, by decide, ?_⟩
  decide

/-- C4 (amended): world construction performs no validation whatsoever —
`World::from_input` accepts every input, producing exactly one body per
configured circle (invalid masses, radii, timesteps and extents included),
and the core steps the resulting world like any other, preserving its body
count. -/
theorem from_input_never_rejects (input : SimulationInput) :
    (World.from_input input).circles.length = input.circles.length ∧
    ∀ w : World, (World.step w).circles.length = w.circles.length := by
  constructor
  · unfold World.from_input
    simp
  · exact step_length

/-! ## Claims C1 and C8: the recorded run and the drop scenario -/

/-- The `simple_drop` scenario input (`scenarios/simple_drop.rs`) with its
float fields converted to their Q16.16 encodings: a 100 x 100 world, gravity
(0, -9.81), timestep 1/60, restitution 0.8, position correction 0.8, one
circle at (50, 80) with radius 5, mass 1 and zero initial velocity. -/
def simpleDropInput : SimulationInput :=
  { world_width := ⟨6553600⟩, world_height := ⟨6553600⟩
    gravity := ⟨⟨0⟩, ⟨-642908⟩⟩
    timestep := ⟨1092⟩
    restitution := ⟨52429⟩
    position_correction := ⟨52429⟩
    circles := [{ position := ⟨⟨3276800⟩, ⟨5242880⟩⟩, velocity := ⟨⟨0⟩, ⟨0⟩⟩,
                  radius := ⟨327680⟩, mass := ⟨65536⟩ }]
    num_steps := 120
    record_trajectory := true
    seed := 0 }

/-- C1: determinism of the recorded run.  Constructing the world from the
same input twice and executing the same number of recorded ticks yields
bit-identical traces, and in particular bit-identical `output.final_state`:
the embedded semantics consumes no randomness, no time source and no
address-dependent iteration order, so the run is a pure function of the
input and the step count. -/
theorem run_twice_bit_identical (input : SimulationInput) (n : Nat) (w1 w2 : World)
    (h1 : w1 = World.from_input input) (h2 : w2 = World.from_input input) :
    w1.run_with_recording n = w2.run_with_recording n ∧
    (w1.run_with_recording n).output.final_state =
      (w2.run_with_recording n).output.final_state := by
  subst h1
  subst h2
  exact ⟨rfl, rfl⟩

/-- Witness for `run_twice_bit_identical` on the drop scenario. -/
theorem run_twice_bit_identical_w :
    (World.from_input simpleDropInput).run_with_recording 2 =
      (World.from_input simpleDropInput).run_with_recording 2 ∧
    ((World.from_input simpleDropInput).run_with_recording 2).output.final_state =
      ((World.from_input simpleDropInput).run_with_recording 2).output.final_state :=
  run_twice_bit_identical simpleDropInput 2 _ _ rfl rfl

/-- The drop-scenario world after 40 ticks (used to keep each kernel
evaluation below the recursion limits). -/
def dropW40 : World :=
  { bounds := ⟨⟨6553600⟩, ⟨6553600⟩⟩
    gravity := ⟨⟨0⟩, ⟨-642908⟩⟩
    timestep := ⟨1092⟩
    circles := [{ position := ⟨⟨3276800⟩, ⟨5096100⟩⟩, old_position := ⟨⟨3276800⟩, ⟨5103260⟩⟩,
                  velocity := ⟨⟨0⟩, ⟨-429704⟩⟩, radius := ⟨327680⟩, mass := ⟨65536⟩,
                  restitution := ⟨32768⟩, friction := ⟨6554⟩ }]
    collision_config := { restitution := ⟨52429⟩, position_correction := ⟨52429⟩,
                          velocity_threshold := ⟨655⟩ } }

/-- The drop-scenario world after 80 ticks. -/
def dropW80 : World :=
  { bounds := ⟨⟨6553600⟩, ⟨6553600⟩⟩
    gravity := ⟨⟨0⟩, ⟨-642908⟩⟩
    timestep := ⟨1092⟩
    circles := [{ position := ⟨⟨3276800⟩, ⟨4662920⟩⟩, old_position := ⟨⟨3276800⟩, ⟨4677240⟩⟩,
                  velocity := ⟨⟨0⟩, ⟨-859409⟩⟩, radius := ⟨327680⟩, mass := ⟨65536⟩,
                  restitution := ⟨32768⟩, friction := ⟨6554⟩ }]
    collision_config := { restitution := ⟨52429⟩, position_correction := ⟨52429⟩,
                          velocity_threshold := ⟨655⟩ } }

/-- The drop-scenario world after 120 ticks. -/
def dropW120 : World :=
  { bounds := ⟨⟨6553600⟩, ⟨6553600⟩⟩
    gravity := ⟨⟨0⟩, ⟨-642908⟩⟩
    timestep := ⟨1092⟩
    circles := [{ position := ⟨⟨3276800⟩, ⟨3943340⟩⟩, old_position := ⟨⟨3276800⟩, ⟨3964820⟩⟩,
                  velocity := ⟨⟨0⟩, ⟨-1289114⟩⟩, radius := ⟨327680⟩, mass := ⟨65536⟩,
                  restitution := ⟨32768⟩, friction := ⟨6554⟩ }]
    collision_config := { restitution := ⟨52429⟩, position_correction := ⟨52429⟩,
                          velocity_threshold := ⟨655⟩ } }

set_option maxRecDepth 100000 in
/-- Helper: the first 40 ticks of the drop scenario, evaluated. -/
theorem drop_chunk1 : (World.step)^[40] (World.from_input simpleDropInput) = dropW40 := by
  decide

set_option maxRecDepth 100000 in
/-- Helper: ticks 41 to 80 of the drop scenario, evaluated. -/
theorem drop_chunk2 : (World.step)^[40] dropW40 = dropW80 := by
  decide

set_option maxRecDepth 100000 in
/-- Helper: ticks 81 to 120 of the drop scenario, evaluated. -/
theorem drop_chunk3 : (World.step)^[40] dropW80 = dropW120 := by
  decide

/-- Helper: the drop scenario's world after all 120 ticks. -/
theorem drop_120 : (World.step)^[120] (World.from_input simpleDropInput) = dropW120 := by
  have h : (120 : Nat) = 40 + (40 + 40) := rfl
  rw [h, Function.iterate_add_apply, Function.iterate_add_apply, drop_chunk1, drop_chunk2,
    drop_chunk3]

/-- C8 (counterexample): after 120 executions of `World::step` on the drop
scenario the body's `position.y` encoding does not equal its radius encoding
— two seconds of free fall from height 80 do not even reach the floor. -/
theorem drop_120_y_not_radius :
    (((World.step)^[120] (World.from_input simpleDropInput)).circles.getD 0 dCircle).position.y ≠
      (((World.step)^[120] (World.from_input simpleDropInput)).circles.getD 0 dCircle).radius := by
  rw [drop_120]
  decide

/-- C8 (amended): after 120 executions of `World::step` on the drop scenario
the body's `position.y` encoding is `3943340` (about 60.17: it is still in
free fall), which differs from the radius encoding `327680`. -/
theorem drop_120_final_y :
    (((World.step)^[120] (World.from_input simpleDropInput)).circles.getD 0 dCircle).position.y =
      ⟨3943340⟩ ∧ (Scalar.mk 3943340) ≠ ⟨327680⟩ := by
  rw [drop_120]
  exact ⟨rfl, by decide⟩

/-! ## Claim C6: the narrow phase -/

/-- Center delta `pos_b - pos_a` of a candidate pair, the specification's
`delta`. -/
def pairDelta (circles : List Circle) (a b : Nat) : Vec2 :=
  (circles.getD b dCircle).position.sub (circles.getD a dCircle).position

/-- Squared center distance `dot(delta, delta)` of a candidate pair, the
specification's `d²`. -/
def pairD2 (circles : List Circle) (a b : Nat) : Scalar :=
  (pairDelta circles a b).dot (pairDelta circles a b)

/-- Radius sum `r_a + r_b` of a candidate pair, the specification's `r_sum`. -/
def pairRsum (circles : List Circle) (a b : Nat) : Scalar :=
  (circles.getD a dCircle).radius.add (circles.getD b dCircle).radius

/-- Helper: the loop body of `detect_collisions`, characterised through the
specification's quantities. -/
theorem detectOne_char (circles : List Circle) (p : Nat × Nat) :
    detectOne circles p =
      (if (pairD2 circles p.1 p.2).bits <
            ((pairRsum circles p.1 p.2).mul (pairRsum circles p.1 p.2)).bits ∧
          0 < (pairD2 circles p.1 p.2).bits then
        some { idx_a := p.1, idx_b := p.2
               normal := (pairDelta circles p.1 p.2).sdiv (pairD2 circles p.1 p.2).sqrt
               depth := (pairRsum circles p.1 p.2).sub (pairD2 circles p.1 p.2).sqrt
               contact := (circles.getD p.1 dCircle).position.add
                 (((pairDelta circles p.1 p.2).sdiv (pairD2 circles p.1 p.2).sqrt).smul
                   (circles.getD p.1 dCircle).radius) }
      else none) := rfl

/-- C6: for a candidate pair `(a, b)` with both indices in range,
`detect_collisions` emits a contact with those indices iff
`0 < d² < r_sum²` (where `d² = dot(pos_b - pos_a, pos_b - pos_a)` and
`r_sum = r_a + r_b`), and every emitted contact with those indices carries
`normal = delta / sqrt(d²)`, `depth = r_sum - sqrt(d²)` and
`contact = pos_a + normal · r_a`. -/
theorem detect_collisions_narrow_phase (circles : List Circle) (pairs : List (Nat × Nat))
    (a b : Nat) (hmem : (a, b) ∈ pairs) (ha : a < circles.length) (hb : b < circles.length) :
    ((∃ col, col ∈ detect_collisions circles pairs ∧ col.idx_a = a ∧ col.idx_b = b) ↔
      (0 < (pairD2 circles a b).bits ∧
        (pairD2 circles a b).bits <
          ((pairRsum circles a b).mul (pairRsum circles a b)).bits)) ∧
    (∀ col, col ∈ detect_collisions circles pairs → col.idx_a = a → col.idx_b = b →
      col.normal = (pairDelta circles a b).sdiv (pairD2 circles a b).sqrt ∧
      col.depth = (pairRsum circles a b).sub (pairD2 circles a b).sqrt ∧
      col.contact = (circles.getD a dCircle).position.add
        (((pairDelta circles a b).sdiv (pairD2 circles a b).sqrt).smul
          (circles.getD a dCircle).radius)) := by
  constructor
  · constructor
    · rintro ⟨col, hcol, hia, hib⟩
      obtain ⟨p, hp, hdet⟩ := List.mem_filterMap.mp hcol
      rw [detectOne_char] at hdet
      split at hdet
      · rename_i hcond
        obtain ⟨rfl⟩ := Option.some.inj hdet
        simp only at hia hib
        subst hia
        subst hib
        exact ⟨hcond.2, hcond.1⟩
      · exact absurd hdet (by simp)
    · rintro ⟨h1, h2⟩
      refine ⟨{ idx_a := a, idx_b := b
                normal := (pairDelta circles a b).sdiv (pairD2 circles a b).sqrt
                depth := (pairRsum circles a b).sub (pairD2 circles a b).sqrt
                contact := (circles.getD a dCircle).position.add
                  (((pairDelta circles a b).sdiv (pairD2 circles a b).sqrt).smul
                    (circles.getD a dCircle).radius) },
             List.mem_filterMap.mpr ⟨(a, b), hmem, ?_⟩, rfl, rfl⟩
      rw [detectOne_char]
      rw [if_pos ⟨h2, h1⟩]
  · intro col hcol hia hib
    obtain ⟨p, hp, hdet⟩ := List.mem_filterMap.mp hcol
    rw [detectOne_char] at hdet
    split at hdet
    · obtain ⟨rfl⟩ := Option.some.inj hdet
      simp only at hia hib
      subst hia
      subst hib
      exact ⟨rfl, rfl, rfl⟩
    · exact absurd hdet (by simp)

/-- Two overlapping unit circles for the C6 witness. -/
def twoCircles : List Circle :=
  [Circle.new ⟨⟨0⟩, ⟨0⟩⟩ ⟨65536⟩ ⟨65536⟩, Circle.new ⟨⟨65536⟩, ⟨0⟩⟩ ⟨65536⟩ ⟨65536⟩]

/-- Witness for `detect_collisions_narrow_phase` on two overlapping unit
circles with the single candidate pair `(0, 1)`. -/
theorem detect_collisions_narrow_phase_w :
    ((∃ col, col ∈ detect_collisions twoCircles [(0, 1)] ∧ col.idx_a = 0 ∧ col.idx_b = 1) ↔
      (0 < (pairD2 twoCircles 0 1).bits ∧
        (pairD2 twoCircles 0 1).bits <
          ((pairRsum twoCircles 0 1).mul (pairRsum twoCircles 0 1)).bits)) ∧
    (∀ col, col ∈ detect_collisions twoCircles [(0, 1)] → col.idx_a = 0 → col.idx_b = 1 →
      col.normal = (pairDelta twoCircles 0 1).sdiv (pairD2 twoCircles 0 1).sqrt ∧
      col.depth = (pairRsum twoCircles 0 1).sub (pairD2 twoCircles 0 1).sqrt ∧
      col.contact = (twoCircles.getD 0 dCircle).position.add
        (((pairDelta twoCircles 0 1).sdiv (pairD2 twoCircles 0 1).sqrt).smul
          (twoCircles.getD 0 dCircle).radius)) :=
  detect_collisions_narrow_phase twoCircles [(0, 1)] 0 1 (by decide) (by decide) (by decide)

/-! ## Claims C9 and C10: impulse accumulation and application -/

/-- Helper: `getD` after an in-range `set` at the same index. -/
theorem getD_set_self {α : Type} (l : List α) (i : Nat) (x d : α) (h : i < l.length) :
    (l.set i x).getD i d = x := by
  simp [List.getD_eq_getElem?_getD, List.getElem?_set_self h]

/-- Helper: `getD` after a `set` at a different index. -/
theorem getD_set_ne {α : Type} (l : List α) (i j : Nat) (x d : α) (h : i ≠ j) :
    (l.set i x).getD j d = l.getD j d := by
  simp [List.getD_eq_getElem?_getD, List.getElem?_set_ne h]

/-- The specification-side accumulation: fold the deltas of the impulses that
target body `i`, in list order, starting from `start`. -/
def accFrom (impulses : List Impulse) (i : Nat) (start : Vec2 × Vec2) : Vec2 × Vec2 :=
  impulses.foldl (fun acc imp =>
    if imp.idx = i then (acc.1.add imp.delta_v, acc.2.add imp.delta_pos) else acc) start

/-- The accumulated `(Δv, Δp)` of body `i` over an impulse list. -/
def accumulated (impulses : List Impulse) (i : Nat) : Vec2 × Vec2 :=
  accFrom impulses i (Vec2.zero, Vec2.zero)

/-- Helper: `accStep` preserves the map's length. -/
theorem accStep_length (m : List (Vec2 × Vec2)) (imp : Impulse) :
    (accStep m imp).length = m.length := by
  unfold accStep
  simp

/-- Helper: reading slot `i` of the accumulation fold is the per-body fold of
the impulses targeting `i`. -/
theorem getD_foldl_accStep (impulses : List Impulse) (init : List (Vec2 × Vec2)) (i : Nat)
    (hi : i < init.length) :
    (impulses.foldl accStep init).getD i (Vec2.zero, Vec2.zero) =
      accFrom impulses i (init.getD i (Vec2.zero, Vec2.zero)) := by
  induction impulses generalizing init with
  | nil => rfl
  | cons imp rest ih =>
    rw [List.foldl_cons]
    rw [ih (accStep init imp) (by rw [accStep_length] ; exact hi)]
    unfold accFrom
    rw [List.foldl_cons]
    by_cases hidx : imp.idx = i
    · subst hidx
      unfold accStep
      rw [if_pos rfl]
      rw [getD_set_self _ _ _ _ hi]
    · unfold accStep
      rw [if_neg hidx]
      rw [getD_set_ne _ _ _ _ _ hidx]

/-- Helper: `getD` of a `replicate` is the replicated value. -/
theorem getD_replicate' {α : Type} (n i : Nat) (a : α) :
    (List.replicate n a).getD i a = a := by
  induction n generalizing i with
  | zero => rfl
  | succ k ih =>
    cases i with
    | zero => rfl
    | succ j => exact ih j

/-- Helper: `getD` of `enum.map f` below the length. -/
theorem getD_enum_map {α β : Type} (l : List α) (f : Nat × α → β) (i : Nat) (d : β) (da : α)
    (h : i < l.length) :
    (l.enum.map f).getD i d = f (i, l.getD i da) := by
  have h2 : i < l.enum.length := by simpa [List.enum_length] using h
  rw [getD_map_lt l.enum f i d (i, da) h2]
  congr 1
  rw [List.getD_eq_getElem?_getD, List.getD_eq_getElem?_getD,
    List.getElem?_eq_getElem h2, List.getElem?_eq_getElem h]
  simp [List.getElem_enum]

/-- C10: `apply_impulses` returns a list of the same length in which the body
at each in-range index has `position + Δp` and `velocity + Δv` for its
accumulated per-body deltas, while `old_position`, `radius`, `mass`,
`restitution` and `friction` are unchanged. -/
theorem apply_impulses_frame (circles : List Circle) (impulses : List Impulse)
    (h : ∀ imp ∈ impulses, imp.idx < circles.length) :
    (apply_impulses circles impulses).length = circles.length ∧
    ∀ i, i < circles.length →
      ((apply_impulses circles impulses).getD i dCircle).position =
        (circles.getD i dCircle).position.add (accumulated impulses i).2 ∧
      ((apply_impulses circles impulses).getD i dCircle).velocity =
        (circles.getD i dCircle).velocity.add (accumulated impulses i).1 ∧
      ((apply_impulses circles impulses).getD i dCircle).old_position =
        (circles.getD i dCircle).old_position ∧
      ((apply_impulses circles impulses).getD i dCircle).radius =
        (circles.getD i dCircle).radius ∧
      ((apply_impulses circles impulses).getD i dCircle).mass =
        (circles.getD i dCircle).mass ∧
      ((apply_impulses circles impulses).getD i dCircle).restitution =
        (circles.getD i dCircle).restitution ∧
      ((apply_impulses circles impulses).getD i dCircle).friction =
        (circles.getD i dCircle).friction := by
  refine ⟨apply_impulses_length circles impulses, ?_⟩
  intro i hi
  have hmap : (apply_impulses circles impulses).getD i dCircle =
      (let acc := (impulses.foldl accStep
        (List.replicate circles.length (Vec2.zero, Vec2.zero))).getD i (Vec2.zero, Vec2.zero)
      { circles.getD i dCircle with
          position := (circles.getD i dCircle).position.add acc.2
          velocity := (circles.getD i dCircle).velocity.add acc.1 }) := by
    unfold apply_impulses
    exact getD_enum_map circles _ i dCircle dCircle hi
  rw [hmap]
  have hacc : (impulses.foldl accStep
      (List.replicate circles.length (Vec2.zero, Vec2.zero))).getD i (Vec2.zero, Vec2.zero) =
      accumulated impulses i := by
    rw [getD_foldl_accStep impulses _ i (by simpa using hi)]
    rw [getD_replicate']
    rfl
  rw [hacc]
  exact ⟨rfl, rfl, rfl, rfl, rfl, rfl, rfl⟩

/-- Concrete impulses for the C9 and C10 witnesses: two impulses on body 0
and one on body 1. -/
def twoImpulses : List Impulse :=
  [ { idx := 0, delta_v := ⟨⟨65536⟩, ⟨0⟩⟩, delta_pos := ⟨⟨0⟩, ⟨32768⟩⟩ },
    { idx := 1, delta_v := ⟨⟨0⟩, ⟨-65536⟩⟩, delta_pos := ⟨⟨0⟩, ⟨0⟩⟩ },
    { idx := 0, delta_v := ⟨⟨131072⟩, ⟨0⟩⟩, delta_pos := ⟨⟨-32768⟩, ⟨0⟩⟩ } ]

/-- Witness for `apply_impulses_frame` on concrete circles and impulses,
instantiated at body index 0. -/
theorem apply_impulses_frame_w :
    (apply_impulses twoCircles twoImpulses).length = twoCircles.length ∧
    ((apply_impulses twoCircles twoImpulses).getD 0 dCircle).position =
      (twoCircles.getD 0 dCircle).position.add (accumulated twoImpulses 0).2 ∧
    ((apply_impulses twoCircles twoImpulses).getD 0 dCircle).velocity =
      (twoCircles.getD 0 dCircle).velocity.add (accumulated twoImpulses 0).1 ∧
    ((apply_impulses twoCircles twoImpulses).getD 0 dCircle).old_position =
      (twoCircles.getD 0 dCircle).old_position ∧
    ((apply_impulses twoCircles twoImpulses).getD 0 dCircle).radius =
      (twoCircles.getD 0 dCircle).radius ∧
    ((apply_impulses twoCircles twoImpulses).getD 0 dCircle).mass =
      (twoCircles.getD 0 dCircle).mass ∧
    ((apply_impulses twoCircles twoImpulses).getD 0 dCircle).restitution =
      (twoCircles.getD 0 dCircle).restitution ∧
    ((apply_impulses twoCircles twoImpulses).getD 0 dCircle).friction =
      (twoCircles.getD 0 dCircle).friction :=
  ⟨(apply_impulses_frame twoCircles twoImpulses (by decide)).1,
   (apply_impulses_frame twoCircles twoImpulses (by decide)).2 0 (by decide)⟩

/-- Helper: two accumulation steps commute, for all impulses and maps. -/
theorem accStep_comm (m : List (Vec2 × Vec2)) (p q : Impulse) :
    accStep (accStep m p) q = accStep (accStep m q) p := by
  by_cases hpq : p.idx = q.idx
  · by_cases hlen : p.idx < m.length
    · unfold accStep
      rw [← hpq]
      rw [getD_set_self _ _ _ _ hlen, getD_set_self _ _ _ _ hlen]
      rw [List.set_set, List.set_set]
      have h1 : ∀ s : Vec2 × Vec2,
          ((s.1.add p.delta_v).add q.delta_v, (s.2.add p.delta_pos).add q.delta_pos) =
          ((s.1.add q.delta_v).add p.delta_v, (s.2.add q.delta_pos).add p.delta_pos) := by
        intro s
        rw [Vec2.vadd_assoc s.1 p.delta_v q.delta_v, Vec2.vadd_assoc s.2 p.delta_pos q.delta_pos,
          Vec2.vadd_assoc s.1 q.delta_v p.delta_v, Vec2.vadd_assoc s.2 q.delta_pos p.delta_pos,
          Vec2.vadd_comm p.delta_v q.delta_v, Vec2.vadd_comm p.delta_pos q.delta_pos]
      rw [h1]
    · have hsp : ∀ x, m.set p.idx x = m :=
        fun x => List.set_eq_of_length_le (by omega)
      have hsq : ∀ x, m.set q.idx x = m :=
        fun x => List.set_eq_of_length_le (by rw [← hpq] ; omega)
      unfold accStep
      simp only [hsp, hsq]
  · unfold accStep
    rw [getD_set_ne _ _ _ _ _ hpq, getD_set_ne _ _ _ _ _ (fun he => hpq he.symm)]
    exact List.set_comm _ _ _ hpq

/-- C9: `apply_impulses` is invariant under any permutation of the impulse
list — accumulation is wrapped integer addition per body index, which is
commutative and associative, so the accumulated `(Δv, Δp)` per body and the
resulting circle list do not depend on the enumeration order. -/
theorem apply_impulses_perm_invariant (circles : List Circle) (imps1 imps2 : List Impulse)
    (hp : imps1.Perm imps2) :
    apply_impulses circles imps1 = apply_impulses circles imps2 := by
  unfold apply_impulses
  have hfold : imps1.foldl accStep (List.replicate circles.length (Vec2.zero, Vec2.zero)) =
      imps2.foldl accStep (List.replicate circles.length (Vec2.zero, Vec2.zero)) :=
    hp.foldl_eq' (fun x _hx y _hy z => accStep_comm z x y) _
  rw [hfold]

/-- Witness for `apply_impulses_perm_invariant` on a concrete permutation of
the impulse list. -/
theorem apply_impulses_perm_invariant_w :
    apply_impulses twoCircles twoImpulses =
      apply_impulses twoCircles (twoImpulses.reverse) :=
  apply_impulses_perm_invariant twoCircles twoImpulses (twoImpulses.reverse)
    (List.reverse_perm twoImpulses).symm

/-! ## Claim C5: broad-phase completeness and duplicate freedom -/

/-- Membership of index `j` in the vector of cell `cc` of the ordered map. -/
def memCell (cells : List (GridCell × List Nat)) (cc : GridCell) (j : Nat) : Prop :=
  ∃ l, (cc, l) ∈ cells ∧ j ∈ l

/-- Strict sortedness of the ordered map's keys, the `BTreeMap` invariant. -/
def keysSorted (cells : List (GridCell × List Nat)) : Prop :=
  cells.Pairwise (fun p q => GridCell.ltb p.1 q.1 = true)

/-- Helper: the key order is transitive. -/
theorem ltb_trans {a b c : GridCell} (h1 : GridCell.ltb a b = true)
    (h2 : GridCell.ltb b c = true) : GridCell.ltb a c = true := by
  unfold GridCell.ltb at h1 h2 ⊢
  simp only [Bool.or_eq_true, Bool.and_eq_true, decide_eq_true_eq] at h1 h2 ⊢
  rcases h1 with h1 | ⟨h1e, h1y⟩ <;> rcases h2 with h2 | ⟨h2e, h2y⟩
  · exact Or.inl (lt_trans h1 h2)
  · exact Or.inl (h2e ▸ h1)
  · exact Or.inl (h1e ▸ h2)
  · exact Or.inr ⟨h1e.trans h2e, lt_trans h1y h2y⟩

/-- Helper: the key order is total on distinct keys. -/
theorem ltb_total {a b : GridCell} (hne : a ≠ b) (h : ¬GridCell.ltb a b = true) :
    GridCell.ltb b a = true := by
  unfold GridCell.ltb at h ⊢
  simp only [Bool.or_eq_true, Bool.and_eq_true, decide_eq_true_eq] at h ⊢
  by_cases hx : a.x = b.x
  · have hy : a.y ≠ b.y := by
      intro hy
      exact hne (by cases a ; cases b ; simp_all)
    right
    refine ⟨hx.symm, ?_⟩
    omega
  · left
    omega

/-- Helper: inserting preserves key sortedness. -/
theorem keysSorted_cellsInsert (cells : List (GridCell × List Nat)) (c : GridCell) (j : Nat)
    (h : keysSorted cells) : keysSorted (cellsInsert cells c j) := by
  induction cells with
  | nil => simp [cellsInsert, keysSorted]
  | cons kv rest ih =>
    obtain ⟨k, l⟩ := kv
    rw [cellsInsert]
    unfold keysSorted at h
    rw [List.pairwise_cons] at h
    obtain ⟨hhead, hrest⟩ := h
    by_cases hck : c = k
    · rw [if_pos hck]
      unfold keysSorted
      rw [List.pairwise_cons]
      exact ⟨hhead, hrest⟩
    · rw [if_neg hck]
      by_cases hlt : GridCell.ltb c k = true
      · rw [if_pos hlt]
        unfold keysSorted
        rw [List.pairwise_cons]
        constructor
        · intro q hq
          rcases List.mem_cons.mp hq with rfl | hq2
          · exact hlt
          · exact ltb_trans hlt (hhead q hq2)
        · rw [List.pairwise_cons]
          exact ⟨hhead, hrest⟩
      · rw [if_neg hlt]
        unfold keysSorted
        rw [List.pairwise_cons]
        constructor
        · intro q hq
          rcases mem_keys_cellsInsert rest c j q hq with h1 | hq2
          · rw [h1]
            exact ltb_total hck hlt
          · exact hhead q hq2
        · exact ih hrest
where
  /-- Every entry of the inserted map is the new cell or an old entry. -/
  mem_keys_cellsInsert (cells : List (GridCell × List Nat)) (c : GridCell) (j : Nat)
      (q : GridCell × List Nat) (hq : q ∈ cellsInsert cells c j) :
      q.1 = c ∨ q ∈ cells := by
    induction cells with
    | nil =>
      simp [cellsInsert] at hq
      exact Or.inl (by rw [hq])
    | cons kv rest ih2 =>
      obtain ⟨k, l⟩ := kv
      rw [cellsInsert] at hq
      by_cases hck : c = k
      · rw [if_pos hck] at hq
        rcases List.mem_cons.mp hq with rfl | hq2
        · exact Or.inl hck.symm
        · exact Or.inr (List.mem_cons_of_mem _ hq2)
      · rw [if_neg hck] at hq
        by_cases hlt : GridCell.ltb c k = true
        · rw [if_pos hlt] at hq
          rcases List.mem_cons.mp hq with rfl | hq2
          · exact Or.inl rfl
          · exact Or.inr hq2
        · rw [if_neg hlt] at hq
          rcases List.mem_cons.mp hq with rfl | hq2
          · exact Or.inr (List.mem_cons_self _ _)
          · rcases ih2 hq2 with h1 | h2
            · exact Or.inl h1
            · exact Or.inr (List.mem_cons_of_mem _ h2)

/-- Helper: the inserted index is present in its cell after insertion. -/
theorem memCell_cellsInsert_self (cells : List (GridCell × List Nat)) (c : GridCell) (j : Nat) :
    memCell (cellsInsert cells c j) c j := by
  induction cells with
  | nil => exact ⟨[j], List.mem_cons_self _ _, List.mem_cons_self _ _⟩
  | cons kv rest ih =>
    obtain ⟨k, l⟩ := kv
    rw [cellsInsert]
    by_cases hck : c = k
    · rw [if_pos hck]
      subst hck
      exact ⟨l ++ [j], List.mem_cons_self _ _, by simp⟩
    · rw [if_neg hck]
      by_cases hlt : GridCell.ltb c k = true
      · rw [if_pos hlt]
        exact ⟨[j], List.mem_cons_self _ _, List.mem_cons_self _ _⟩
      · rw [if_neg hlt]
        obtain ⟨l2, hl2, hj⟩ := ih
        exact ⟨l2, List.mem_cons_of_mem _ hl2, hj⟩

/-- Helper: insertion preserves every existing cell membership. -/
theorem memCell_cellsInsert_mono (cells : List (GridCell × List Nat)) (c : GridCell) (j : Nat)
    (cc : GridCell) (m : Nat) (h : memCell cells cc m) : memCell (cellsInsert cells c j) cc m := by
  induction cells with
  | nil =>
    obtain ⟨l, hl, _⟩ := h
    simp at hl
  | cons kv rest ih =>
    obtain ⟨k, l⟩ := kv
    obtain ⟨l0, hl0, hm⟩ := h
    rw [cellsInsert]
    by_cases hck : c = k
    · rw [if_pos hck]
      rcases List.mem_cons.mp hl0 with heq | hl0r
      · have he1 : cc = k := congrArg Prod.fst heq
        have he2 : l0 = l := congrArg Prod.snd heq
        subst he1
        refine ⟨l ++ [j], List.mem_cons_self _ _, ?_⟩
        rw [he2] at hm
        exact List.mem_append_left _ hm
      · exact ⟨l0, List.mem_cons_of_mem _ hl0r, hm⟩
    · rw [if_neg hck]
      by_cases hlt : GridCell.ltb c k = true
      · rw [if_pos hlt]
        exact ⟨l0, List.mem_cons_of_mem _ hl0, hm⟩
      · rw [if_neg hlt]
        rcases List.mem_cons.mp hl0 with heq | hl0r
        · exact ⟨l0, heq ▸ List.mem_cons_self _ _, hm⟩
        · obtain ⟨l2, hl2, hm2⟩ := ih ⟨l0, hl0r, hm⟩
          exact ⟨l2, List.mem_cons_of_mem _ hl2, hm2⟩

/-- Helper: under sorted keys, a key appears in at most one entry. -/
theorem sorted_key_unique (cells : List (GridCell × List Nat)) (hs : keysSorted cells)
    (cc : GridCell) (l1 l2 : List Nat) (h1 : (cc, l1) ∈ cells) (h2 : (cc, l2) ∈ cells) :
    l1 = l2 := by
  induction cells with
  | nil => simp at h1
  | cons kv rest ih =>
    obtain ⟨k, l⟩ := kv
    unfold keysSorted at hs
    rw [List.pairwise_cons] at hs
    obtain ⟨hhead, hrest⟩ := hs
    rcases List.mem_cons.mp h1 with he1 | hr1 <;> rcases List.mem_cons.mp h2 with he2 | hr2
    · exact congrArg Prod.snd (he1.trans he2.symm)
    · exfalso
      have hlt := hhead _ hr2
      have hek : cc = k := congrArg Prod.fst he1
      subst hek
      dsimp only at hlt
      unfold GridCell.ltb at hlt
      simp only [Bool.or_eq_true, Bool.and_eq_true, decide_eq_true_eq] at hlt
      rcases hlt with h | ⟨_, h⟩ <;> omega
    · exfalso
      have hlt := hhead _ hr1
      have hek : cc = k := congrArg Prod.fst he2
      subst hek
      dsimp only at hlt
      unfold GridCell.ltb at hlt
      simp only [Bool.or_eq_true, Bool.and_eq_true, decide_eq_true_eq] at hlt
      rcases hlt with h | ⟨_, h⟩ <;> omega
    · exact ih hrest hr1 hr2

/-- Helper: `pushNew` keeps every pair already present. -/
theorem mem_pushNew_of_mem (acc : List (Nat × Nat)) (q p : Nat × Nat) (h : p ∈ acc) :
    p ∈ pushNew acc q := by
  unfold pushNew
  split
  · exact h
  · exact List.mem_append_left _ h

/-- Helper: `pushNew` contains the pushed pair. -/
theorem mem_pushNew_self (acc : List (Nat × Nat)) (p : Nat × Nat) : p ∈ pushNew acc p := by
  unfold pushNew
  split
  · assumption
  · exact List.mem_append_right _ (List.mem_cons_self _ _)

/-- Helper: a fold of `pushNew` keeps every pair already present. -/
theorem mem_foldl_pushNew_of_mem_acc (ps : List (Nat × Nat)) (acc : List (Nat × Nat))
    (p : Nat × Nat) (h : p ∈ acc) : p ∈ ps.foldl pushNew acc := by
  induction ps generalizing acc with
  | nil => exact h
  | cons q rest ih => exact ih _ (mem_pushNew_of_mem acc q p h)

/-- Helper: a fold of `pushNew` contains every folded pair. -/
theorem mem_foldl_pushNew_of_mem (ps : List (Nat × Nat)) (acc : List (Nat × Nat))
    (p : Nat × Nat) (h : p ∈ ps) : p ∈ ps.foldl pushNew acc := by
  induction ps generalizing acc with
  | nil => simp at h
  | cons q rest ih =>
    rcases List.mem_cons.mp h with rfl | h2
    · exact mem_foldl_pushNew_of_mem_acc rest _ p (mem_pushNew_self acc p)
    · exact ih _ h2

/-- Helper: the outer fold of `get_collision_pairs` keeps the accumulator. -/
theorem mem_pairs_fold_of_mem_acc (cells : List (GridCell × List Nat))
    (acc : List (Nat × Nat)) (p : Nat × Nat) (h : p ∈ acc) :
    p ∈ cells.foldl (fun acc2 kv => (cellPairs kv.2).foldl pushNew acc2) acc := by
  induction cells generalizing acc with
  | nil => exact h
  | cons kv rest ih => exact ih _ (mem_foldl_pushNew_of_mem_acc _ _ _ h)

/-- Helper: a within-cell pair of any map entry reaches the output. -/
theorem mem_pairs_fold (cells : List (GridCell × List Nat)) (acc : List (Nat × Nat))
    (kv : GridCell × List Nat) (hkv : kv ∈ cells) (p : Nat × Nat) (hp : p ∈ cellPairs kv.2) :
    p ∈ cells.foldl (fun acc2 kv2 => (cellPairs kv2.2).foldl pushNew acc2) acc := by
  induction cells generalizing acc with
  | nil => simp at hkv
  | cons kv0 rest ih =>
    rcases List.mem_cons.mp hkv with rfl | h2
    · exact mem_pairs_fold_of_mem_acc rest _ p (mem_foldl_pushNew_of_mem _ _ _ hp)
    · exact ih _ h2

/-- Helper: two distinct indices in one cell vector give their normalised
pair among the cell's pairs. -/
theorem normPair_mem_cellPairs (l : List Nat) (a b : Nat) (ha : a ∈ l) (hb : b ∈ l)
    (hne : a ≠ b) : normPair a b ∈ cellPairs l := by
  induction l with
  | nil => simp at ha
  | cons x rest ih =>
    rw [cellPairs]
    rcases List.mem_cons.mp ha with rfl | ha2
    · have hb2 : b ∈ rest := by
        rcases List.mem_cons.mp hb with rfl | hb2
        · exact absurd rfl hne
        · exact hb2
      exact List.mem_append_left _ (List.mem_map_of_mem _ hb2)
    · rcases List.mem_cons.mp hb with rfl | hb2
      · have hsym : normPair a b = normPair b a := by
          unfold normPair
          by_cases h : a < b
          · rw [if_pos h, if_neg (by omega)]
          · rw [if_neg h, if_pos (by omega)]
        rw [hsym]
        exact List.mem_append_left _ (List.mem_map_of_mem _ ha2)
      · exact List.mem_append_right _ (ih ha2 hb2)

/-- Helper: `pushNew` preserves duplicate freedom. -/
theorem pushNew_nodup (acc : List (Nat × Nat)) (p : Nat × Nat) (h : acc.Nodup) :
    (pushNew acc p).Nodup := by
  unfold pushNew
  split
  · exact h
  · rename_i hnot
    simp [List.nodup_append, h, hnot]

/-- Helper: folds of `pushNew` preserve duplicate freedom. -/
theorem foldl_pushNew_nodup (ps : List (Nat × Nat)) (acc : List (Nat × Nat)) (h : acc.Nodup) :
    (ps.foldl pushNew acc).Nodup := by
  induction ps generalizing acc with
  | nil => exact h
  | cons q rest ih => exact ih _ (pushNew_nodup acc q h)

/-- Helper: the emitted pair list of any grid is duplicate-free. -/
theorem pairs_fold_nodup (cells : List (GridCell × List Nat)) (acc : List (Nat × Nat))
    (h : acc.Nodup) :
    (cells.foldl (fun acc2 kv => (cellPairs kv.2).foldl pushNew acc2) acc).Nodup := by
  induction cells generalizing acc with
  | nil => exact h
  | cons kv rest ih => exact ih _ (foldl_pushNew_nodup _ _ h)

/-- Signed 32-bit range predicate: a computation stays representable, so the
wrapping of the overflow policy is the identity on it. -/
def inRange (v : Int) : Prop := -2147483648 ≤ v ∧ v < 2147483648

/-- The exact (overflow-free) cell coordinate of a Q16.16 world coordinate
`v` for cell size `s`: the fixed-point division truncated toward zero,
then the `to_int` truncation toward zero. -/
def exactCell (s v : Int) : Int := Int.tdiv (Int.tdiv (v * 65536) s) 65536

/-- No-overflow side conditions for one circle's cell computations: a
nonnegative radius, representable bounding-box corners, and representable
fixed-point quotients of the four corners. -/
def cellOk (s : Int) (c : Circle) : Prop :=
  0 ≤ c.radius.bits ∧
  inRange (c.position.x.bits - c.radius.bits) ∧
  inRange (c.position.x.bits + c.radius.bits) ∧
  inRange (c.position.y.bits - c.radius.bits) ∧
  inRange (c.position.y.bits + c.radius.bits) ∧
  inRange (Int.tdiv ((c.position.x.bits - c.radius.bits) * 65536) s) ∧
  inRange (Int.tdiv ((c.position.x.bits + c.radius.bits) * 65536) s) ∧
  inRange (Int.tdiv ((c.position.y.bits - c.radius.bits) * 65536) s) ∧
  inRange (Int.tdiv ((c.position.y.bits + c.radius.bits) * 65536) s)

/-- Closed-disk intersection in world space, on the exact (mathematical)
values of the Q16.16 encodings: `(Δx)² + (Δy)² ≤ (r_a + r_b)²`. -/
def disksIntersect (c1 c2 : Circle) : Prop :=
  (c2.position.x.bits - c1.position.x.bits) ^ 2 +
      (c2.position.y.bits - c1.position.y.bits) ^ 2 ≤
    (c1.radius.bits + c2.radius.bits) ^ 2

instance (s : Int) (c : Circle) : Decidable (cellOk s c) := by
  unfold cellOk inRange
  infer_instance

instance (c1 c2 : Circle) : Decidable (disksIntersect c1 c2) := by
  unfold disksIntersect
  infer_instance

/-- Helper: membership in the inclusive integer range. -/
theorem mem_intRange (lo hi v : Int) : v ∈ intRange lo hi ↔ lo ≤ v ∧ v ≤ hi := by
  unfold intRange
  constructor
  · intro h
    obtain ⟨k, hk, he⟩ := List.mem_map.mp h
    rw [List.mem_range] at hk
    rw [Int.ofNat_eq_natCast] at he
    omega
  · intro ⟨h1, h2⟩
    refine List.mem_map.mpr ⟨(v - lo).toNat, List.mem_range.mpr (by omega), ?_⟩
    rw [Int.ofNat_eq_natCast]
    omega

/-- Helper: truncating division is monotone in the dividend for a positive
divisor. -/
theorem tdiv_mono (d : Int) (hd : 0 < d) (a b : Int) (h : a ≤ b) :
    a.tdiv d ≤ b.tdiv d := by
  rcases le_or_lt 0 a with ha | ha
  · rw [Int.tdiv_eq_ediv ha (le_of_lt hd), Int.tdiv_eq_ediv (le_trans ha h) (le_of_lt hd)]
    exact Int.ediv_le_ediv hd h
  · rcases le_or_lt 0 b with hb | hb
    · have h1 : a.tdiv d = -((-a).tdiv d) := by
        rw [← Int.neg_tdiv, neg_neg]
      have h2 : 0 ≤ (-a).tdiv d := Int.tdiv_nonneg (by omega) (le_of_lt hd)
      have h3 : 0 ≤ b.tdiv d := Int.tdiv_nonneg hb (le_of_lt hd)
      omega
    · have h1 : a.tdiv d = -((-a).tdiv d) := by
        rw [← Int.neg_tdiv, neg_neg]
      have h2 : b.tdiv d = -((-b).tdiv d) := by
        rw [← Int.neg_tdiv, neg_neg]
      have h3 : (-b).tdiv d ≤ (-a).tdiv d := by
        rw [Int.tdiv_eq_ediv (by omega) (le_of_lt hd), Int.tdiv_eq_ediv (by omega) (le_of_lt hd)]
        exact Int.ediv_le_ediv hd (by omega)
      omega

/-- Helper: the exact cell coordinate is monotone in the world coordinate
for a positive cell size. -/
theorem exactCell_mono (s : Int) (hs : 0 < s) (v1 v2 : Int) (h : v1 ≤ v2) :
    exactCell s v1 ≤ exactCell s v2 := by
  unfold exactCell
  exact tdiv_mono 65536 (by omega) _ _
    (tdiv_mono s hs _ _ (by exact mul_le_mul_of_nonneg_right h (by omega)))

/-- Helper: with in-range side conditions, the computed cell coordinate of a
wrapped Q16.16 value equals the exact cell coordinate. -/
theorem computed_cell_eq (s : Scalar) (v : Int) (h1 : inRange v)
    (h2 : inRange (Int.tdiv (v * 65536) s.bits)) :
    ((Scalar.mk (wrap v)).div s).toInt = exactCell s.bits v := by
  unfold Scalar.div Scalar.toInt exactCell
  simp only
  rw [wrap_eq_self v h1.1 h1.2, wrap_eq_self _ h2.1 h2.2]

/-- Helper: every cell of a circle's exact bounding-box rectangle occurs in
its `get_overlapping_cells` list, under the no-overflow side conditions. -/
theorem mem_overlapping (s : Scalar) (c : Circle) (hok : cellOk s.bits c) (ex ey : Int)
    (hx1 : exactCell s.bits (c.position.x.bits - c.radius.bits) ≤ ex)
    (hx2 : ex ≤ exactCell s.bits (c.position.x.bits + c.radius.bits))
    (hy1 : exactCell s.bits (c.position.y.bits - c.radius.bits) ≤ ey)
    (hy2 : ey ≤ exactCell s.bits (c.position.y.bits + c.radius.bits)) :
    GridCell.mk ex ey ∈ get_overlapping_cells s c.position c.radius := by
  obtain ⟨_, hr1, hr2, hr3, hr4, hq1, hq2, hq3, hq4⟩ := hok
  unfold get_overlapping_cells
  have e1 : ((c.position.x.sub c.radius).div s).toInt =
      exactCell s.bits (c.position.x.bits - c.radius.bits) := computed_cell_eq s _ hr1 hq1
  have e2 : ((c.position.x.add c.radius).div s).toInt =
      exactCell s.bits (c.position.x.bits + c.radius.bits) := computed_cell_eq s _ hr2 hq2
  have e3 : ((c.position.y.sub c.radius).div s).toInt =
      exactCell s.bits (c.position.y.bits - c.radius.bits) := computed_cell_eq s _ hr3 hq3
  have e4 : ((c.position.y.add c.radius).div s).toInt =
      exactCell s.bits (c.position.y.bits + c.radius.bits) := computed_cell_eq s _ hr4 hq4
  refine List.mem_flatMap.mpr ⟨ex, ?_, ?_⟩
  · rw [e1, e2]
    exact (mem_intRange _ _ ex).mpr ⟨hx1, hx2⟩
  · refine List.mem_map.mpr ⟨ey, ?_, rfl⟩
    rw [e3, e4]
    exact (mem_intRange _ _ ey).mpr ⟨hy1, hy2⟩

/-- Helper: the neighbor-insertion fold of `insertCircle` preserves existing
memberships. -/
theorem foldA_mono (L : List GridCell) (cell : GridCell) (idx : Nat)
    (cs : List (GridCell × List Nat)) (cc : GridCell) (m : Nat) (h : memCell cs cc m) :
    memCell (L.foldl (fun cs2 nc => if nc = cell then cs2 else cellsInsert cs2 nc idx) cs)
      cc m := by
  induction L generalizing cs with
  | nil => exact h
  | cons nc rest ih =>
    rw [List.foldl_cons]
    by_cases hnc : nc = cell
    · rw [if_pos hnc]
      exact ih _ h
    · rw [if_neg hnc]
      exact ih _ (memCell_cellsInsert_mono _ _ _ _ _ h)

/-- Helper: the neighbor-insertion fold establishes membership for every
listed neighbor other than the position cell. -/
theorem foldA_establish (L : List GridCell) (cell : GridCell) (idx : Nat)
    (cs : List (GridCell × List Nat)) (cc : GridCell) (hcc : cc ∈ L) (hne : cc ≠ cell) :
    memCell (L.foldl (fun cs2 nc => if nc = cell then cs2 else cellsInsert cs2 nc idx) cs)
      cc idx := by
  induction L generalizing cs with
  | nil => simp at hcc
  | cons nc rest ih =>
    rw [List.foldl_cons]
    rcases List.mem_cons.mp hcc with rfl | h2
    · rw [if_neg hne]
      exact foldA_mono rest cell idx _ cc idx (memCell_cellsInsert_self cs cc idx)
    · by_cases hnc : nc = cell
      · rw [if_pos hnc]
        exact ih _ h2
      · rw [if_neg hnc]
        exact ih _ h2

/-- Helper: `insertCircle` records the index in its position cell and in
every overlapping cell. -/
theorem insertCircle_mem (s : Scalar) (cells : List (GridCell × List Nat)) (idx : Nat)
    (c : Circle) (cc : GridCell)
    (h : cc = position_to_cell s c.position ∨ cc ∈ get_overlapping_cells s c.position c.radius) :
    memCell (insertCircle s cells idx c) cc idx := by
  unfold insertCircle
  by_cases hcc : cc = position_to_cell s c.position
  · subst hcc
    exact foldA_mono _ _ _ _ _ _ (memCell_cellsInsert_self cells _ idx)
  · rcases h with he | hov
    · exact absurd he hcc
    · exact foldA_establish _ _ _ _ _ hov hcc

/-- Helper: `insertCircle` preserves existing memberships. -/
theorem insertCircle_mono (s : Scalar) (cells : List (GridCell × List Nat)) (idx : Nat)
    (c : Circle) (cc : GridCell) (m : Nat) (h : memCell cells cc m) :
    memCell (insertCircle s cells idx c) cc m := by
  unfold insertCircle
  exact foldA_mono _ _ _ _ _ _ (memCell_cellsInsert_mono _ _ _ _ _ h)

/-- Helper: the whole build fold preserves existing memberships. -/
theorem build_fold_mono (s : Scalar) (lc : List (Nat × Circle))
    (start : List (GridCell × List Nat)) (cc : GridCell) (m : Nat) (h : memCell start cc m) :
    memCell (lc.foldl (fun cs p => insertCircle s cs p.1 p.2) start) cc m := by
  induction lc generalizing start with
  | nil => exact h
  | cons p rest ih => exact ih _ (insertCircle_mono _ _ _ _ _ _ h)

/-- Helper: the build fold records every listed circle's index in its
position cell and in each of its overlapping cells. -/
theorem build_fold_mem (s : Scalar) (lc : List (Nat × Circle))
    (start : List (GridCell × List Nat)) (idx : Nat) (c : Circle) (hmem : (idx, c) ∈ lc)
    (cc : GridCell)
    (h : cc = position_to_cell s c.position ∨ cc ∈ get_overlapping_cells s c.position c.radius) :
    memCell (lc.foldl (fun cs p => insertCircle s cs p.1 p.2) start) cc idx := by
  induction lc generalizing start with
  | nil => simp at hmem
  | cons p rest ih =>
    rw [List.foldl_cons]
    rcases List.mem_cons.mp hmem with rfl | h2
    · exact build_fold_mono s rest _ cc idx (insertCircle_mem s start idx c cc h)
    · exact ih _ h2

/-- Helper: the neighbor-insertion fold preserves key sortedness. -/
theorem foldA_sorted (L : List GridCell) (cell : GridCell) (idx : Nat)
    (cs : List (GridCell × List Nat)) (h : keysSorted cs) :
    keysSorted
      (L.foldl (fun cs2 nc => if nc = cell then cs2 else cellsInsert cs2 nc idx) cs) := by
  induction L generalizing cs with
  | nil => exact h
  | cons nc rest ih =>
    rw [List.foldl_cons]
    by_cases hnc : nc = cell
    · rw [if_pos hnc]
      exact ih _ h
    · rw [if_neg hnc]
      exact ih _ (keysSorted_cellsInsert _ _ _ h)

/-- Helper: the build fold preserves key sortedness. -/
theorem build_fold_sorted (s : Scalar) (lc : List (Nat × Circle))
    (start : List (GridCell × List Nat)) (h : keysSorted start) :
    keysSorted (lc.foldl (fun cs p => insertCircle s cs p.1 p.2) start) := by
  induction lc generalizing start with
  | nil => exact h
  | cons p rest ih =>
    rw [List.foldl_cons]
    refine ih _ ?_
    unfold insertCircle
    exact foldA_sorted _ _ _ _ (keysSorted_cellsInsert _ _ _ h)

/-- Helper: the normalised pair of an ascending pair is itself. -/
theorem normPair_eq_of_lt (a b : Nat) (h : a < b) : normPair a b = (a, b) := by
  unfold normPair
  rw [if_pos h]

/-- Helper: `getD` below the length reads the list element. -/
theorem getD_eq_getElem_lt {α : Type} (l : List α) (i : Nat) (d : α) (h : i < l.length) :
    l.getD i d = l[i] := by
  rw [List.getD_eq_getElem?_getD, List.getElem?_eq_getElem h]
  rfl

/-- Helper: the enumerated list contains `(i, l.getD i d)` below the length. -/
theorem enum_mem_getD {α : Type} (l : List α) (i : Nat) (d : α) (h : i < l.length) :
    (i, l.getD i d) ∈ l.enum := by
  rw [getD_eq_getElem_lt l i d h]
  have h2 : i < l.enum.length := by simpa [List.enum_length] using h
  have h3 := List.getElem_mem h2
  rwa [List.getElem_enum] at h3

/-- Helper: a square bound gives a two-sided bound. -/
theorem abs_le_of_sq_le_sq (x r : Int) (hr : 0 ≤ r) (h : x ^ 2 ≤ r ^ 2) :
    -r ≤ x ∧ x ≤ r := by
  constructor <;> nlinarith [sq_nonneg (x - r), sq_nonneg (x + r)]

/-- C5 (amended): for every circle list and positive cell size, provided the
fixed-point cell-coordinate computations do not overflow (each circle's
bounding-box corners and their scaled quotients stay in the signed 32-bit
range) and radii are nonnegative, the broad phase emits every pair
`(a, b)`, `a < b`, whose closed disks intersect in world space; and the
emitted pair list never contains duplicates. -/
theorem broad_phase_pairs (circles : List Circle) (s ww wh : Scalar)
    (hs : 0 < s.bits) (hok : ∀ c ∈ circles, cellOk s.bits c) :
    (∀ a b, a < b → b < circles.length →
      disksIntersect (circles.getD a dCircle) (circles.getD b dCircle) →
      (a, b) ∈ (SpatialGrid.build circles s ww wh).get_collision_pairs) ∧
    ((SpatialGrid.build circles s ww wh).get_collision_pairs).Nodup := by
  constructor
  · intro a b hab hb hint
    have ha : a < circles.length := lt_trans hab hb
    have hoka : cellOk s.bits (circles.getD a dCircle) := by
      refine hok _ ?_
      rw [getD_eq_getElem_lt _ _ _ ha]
      exact List.getElem_mem ha
    have hokb : cellOk s.bits (circles.getD b dCircle) := by
      refine hok _ ?_
      rw [getD_eq_getElem_lt _ _ _ hb]
      exact List.getElem_mem hb
    have hra := hoka.1
    have hrb := hokb.1
    have hxsq : (((circles.getD b dCircle).position.x.bits -
        (circles.getD a dCircle).position.x.bits)) ^ 2 ≤
        ((circles.getD a dCircle).radius.bits + (circles.getD b dCircle).radius.bits) ^ 2 := by
      have := sq_nonneg ((circles.getD b dCircle).position.y.bits -
        (circles.getD a dCircle).position.y.bits)
      unfold disksIntersect at hint
      omega
    have hysq : (((circles.getD b dCircle).position.y.bits -
        (circles.getD a dCircle).position.y.bits)) ^ 2 ≤
        ((circles.getD a dCircle).radius.bits + (circles.getD b dCircle).radius.bits) ^ 2 := by
      have := sq_nonneg ((circles.getD b dCircle).position.x.bits -
        (circles.getD a dCircle).position.x.bits)
      unfold disksIntersect at hint
      omega
    obtain ⟨hxl, hxr⟩ := abs_le_of_sq_le_sq _ _ (by omega) hxsq
    obtain ⟨hyl, hyr⟩ := abs_le_of_sq_le_sq _ _ (by omega) hysq
    set ax := (circles.getD a dCircle).position.x.bits with hax
    set bx := (circles.getD b dCircle).position.x.bits with hbx
    set ay := (circles.getD a dCircle).position.y.bits with hay
    set yb := (circles.getD b dCircle).position.y.bits with hby
    set ra := (circles.getD a dCircle).radius.bits with hra2
    set rb := (circles.getD b dCircle).radius.bits with hrb2
    set mx := max (ax - ra) (bx - rb) with hmx
    set my := max (ay - ra) (yb - rb) with hmy
    set ex := exactCell s.bits mx with hex
    set ey := exactCell s.bits my with hey
    have hcella : memCell (SpatialGrid.build circles s ww wh).cells (GridCell.mk ex ey) a := by
      refine build_fold_mem s circles.enum [] a _ (enum_mem_getD circles a dCircle ha) _
        (Or.inr ?_)
      refine mem_overlapping s _ hoka ex ey ?_ ?_ ?_ ?_
      · exact exactCell_mono s.bits hs _ _ (le_max_left _ _)
      · exact exactCell_mono s.bits hs _ _ (max_le (by omega) (by omega))
      · exact exactCell_mono s.bits hs _ _ (le_max_left _ _)
      · exact exactCell_mono s.bits hs _ _ (max_le (by omega) (by omega))
    have hcellb : memCell (SpatialGrid.build circles s ww wh).cells (GridCell.mk ex ey) b := by
      refine build_fold_mem s circles.enum [] b _ (enum_mem_getD circles b dCircle hb) _
        (Or.inr ?_)
      refine mem_overlapping s _ hokb ex ey ?_ ?_ ?_ ?_
      · exact exactCell_mono s.bits hs _ _ (le_max_right _ _)
      · exact exactCell_mono s.bits hs _ _ (max_le (by omega) (by omega))
      · exact exactCell_mono s.bits hs _ _ (le_max_right _ _)
      · exact exactCell_mono s.bits hs _ _ (max_le (by omega) (by omega))
    have hsorted : keysSorted (SpatialGrid.build circles s ww wh).cells :=
      build_fold_sorted s circles.enum [] List.Pairwise.nil
    obtain ⟨l1, hl1, ha2⟩ := hcella
    obtain ⟨l2, hl2, hb2⟩ := hcellb
    have hll : l1 = l2 := sorted_key_unique _ hsorted _ l1 l2 hl1 hl2
    subst hll
    have hpair : normPair a b ∈ cellPairs l1 :=
      normPair_mem_cellPairs l1 a b ha2 hb2 (Nat.ne_of_lt hab)
    have hfin := mem_pairs_fold (SpatialGrid.build circles s ww wh).cells [] _ hl1 _ hpair
    rw [normPair_eq_of_lt a b hab] at hfin
    exact hfin
  · exact pairs_fold_nodup _ [] List.nodup_nil

/-- Witness for `broad_phase_pairs` on two overlapping unit circles with
cell size 2. -/
theorem broad_phase_pairs_w :
    (0, 1) ∈ (SpatialGrid.build twoCircles ⟨131072⟩ ⟨6553600⟩ ⟨6553600⟩).get_collision_pairs ∧
    ((SpatialGrid.build twoCircles ⟨131072⟩ ⟨6553600⟩ ⟨6553600⟩).get_collision_pairs).Nodup :=
  ⟨(broad_phase_pairs twoCircles ⟨131072⟩ ⟨6553600⟩ ⟨6553600⟩ (by decide) (by decide)).1
      0 1 (by decide) (by decide) (by decide),
   (broad_phase_pairs twoCircles ⟨131072⟩ ⟨6553600⟩ ⟨6553600⟩ (by decide) (by decide)).2⟩

/-- Two intersecting circles whose cell computations overflow at the
positive cell size `2^-16`. -/
def hugeCircles : List Circle :=
  [ { position := ⟨⟨0⟩, ⟨0⟩⟩, old_position := ⟨⟨0⟩, ⟨0⟩⟩, velocity := ⟨⟨0⟩, ⟨0⟩⟩,
      radius := ⟨65536⟩, mass := ⟨65536⟩, restitution := ⟨32768⟩, friction := ⟨6554⟩ },
    { position := ⟨⟨98304⟩, ⟨0⟩⟩, old_position := ⟨⟨98304⟩, ⟨0⟩⟩, velocity := ⟨⟨0⟩, ⟨0⟩⟩,
      radius := ⟨65536⟩, mass := ⟨65536⟩, restitution := ⟨32768⟩, friction := ⟨6554⟩ } ]

/-- C5 (counterexample): with the positive cell size of encoding `1`
(`2^-16`), the wrapping fixed-point divisions send the two intersecting unit
circles at `(0, 0)` and `(1.5, 0)` into disjoint grid cells, so
`get_collision_pairs` is empty even though the pair `(0, 1)` has intersecting
closed disks. -/
theorem broad_phase_misses_intersecting_pair :
    0 < (Scalar.mk 1).bits ∧
    disksIntersect (hugeCircles.getD 0 dCircle) (hugeCircles.getD 1 dCircle) ∧
    (SpatialGrid.build hugeCircles ⟨1⟩ ⟨6553600⟩ ⟨6553600⟩).get_collision_pairs = [] := by
  refine ⟨by decide, by decide, ?_⟩
  decide

end Det
